import Mathlib

/-!
# Verification of the AiDocPlus AI chat streaming / tool-orchestration engine

Shallow embedding of the subsystem implemented in
`apps/desktop/src-tauri/src/ai.rs`, `.../src/commands/ai.rs` and
`.../src/tools.rs`, together with theorems settling the frozen claims
about it.

Conventions of the embedding:
* `serde_json::Value` is modelled by the inductive type `Json`; the field
  accessors `get`, array indexing and `as_str` are modelled faithfully.
* JSON *parsing* (`serde_json::from_str`) belongs to a third-party crate,
  not to this repository; it is abstracted as a parameter
  `p : String → Option Json` of every function that parses.
* Byte buffers are `List Nat` (one `Nat` per byte); UTF-8 lossy decoding
  is modelled on ASCII bytes (bytes ≥ 128 map to the replacement
  character, as they would for an invalid sequence).
* The shared cancellation flag of a stream session is read several times
  during one call; reading is modelled by a function `cancel : Nat → Bool`
  applied to a `clock` counter that increases by one at every read, so a
  flag that flips mid-stream is representable as `fun c => n ≤ c`.
* The per-window event emitter is modelled by an `events : List String`
  accumulator holding the `content` field of every emitted
  `ai:stream:chunk` event, in emission order.
-/

namespace AiDoc

/-! ## JSON values (model of `serde_json::Value`) -/

/-- Model of `serde_json::Value`.  Objects are association lists in
insertion order; numbers are irrelevant to every claim and are kept as
integers. -/
inductive Json where
  | null : Json
  | bool : Bool → Json
  | num : Int → Json
  | str : String → Json
  | arr : List Json → Json
  | obj : List (String × Json) → Json

namespace Json

/-- Model of `Value::get(&str)`: field lookup on an object, `None` on any
other shape. -/
def get : Json → String → Option Json
  | .obj fs, k => (fs.find? (fun f => f.1 == k)).map (fun f => f.2)
  | _, _ => none

/-- Model of `Value::get(usize)`: index lookup on an array, `None` on any
other shape. -/
def getIdx : Json → Nat → Option Json
  | .arr xs, i => xs.get? i
  | _, _ => none

/-- Model of `Value::as_str`. -/
def asStr : Json → Option String
  | .str s => some s
  | _ => none

end Json

/-! ## Provider profile resolver (`ai.rs`, `impl AIConfig`) -/

/-- Model of `struct AIConfig` (`ai.rs`).  The `api_key` field plays no
role in any claim about the resolver and is omitted from the model. -/
structure AIConfig where
  provider : String
  base_url : Option String
  model : Option String
deriving DecidableEq, Repr

namespace AIConfig

/-- Embedding of `AIConfig::get_base_url` (`ai.rs`). -/
def get_base_url (c : AIConfig) : String :=
  match c.base_url with
  | some url => url
  | none =>
    match c.provider with
    | "openai" => "https://api.openai.com/v1"
    | "anthropic" => "https://api.anthropic.com/v1"
    | "gemini" => "https://generativelanguage.googleapis.com/v1beta/openai"
    | "xai" => "https://api.x.ai/v1"
    | "deepseek" => "https://api.deepseek.com"
    | "qwen" => "https://dashscope.aliyuncs.com/compatible-mode/v1"
    | "glm" => "https://open.bigmodel.cn/api/paas/v4"
    | "glm-code" => "https://open.bigmodel.cn/api/coding/paas/v4"
    | "minimax" => "https://api.minimaxi.com/v1"
    | "minimax-code" => "https://api.minimaxi.com/v1"
    | "kimi" => "https://api.moonshot.cn/v1"
    | "kimi-code" => "https://api.kimi.com/coding/v1"
    | "litellm" => "http://localhost:4000"
    | _ => "https://api.openai.com/v1"

/-- Embedding of `AIConfig::get_default_model` (`ai.rs`). -/
def get_default_model (c : AIConfig) : String :=
  match c.model with
  | some m => m
  | none =>
    match c.provider with
    | "openai" => "gpt-4.1"
    | "anthropic" => "claude-opus-4-6"
    | "gemini" => "gemini-3-flash-preview"
    | "xai" => "grok-4-0709"
    | "deepseek" => "deepseek-chat"
    | "qwen" => "qwen3-max"
    | "glm" => "glm-5"
    | "glm-code" => "GLM-5"
    | "minimax" => "MiniMax-M2.5"
    | "minimax-code" => "MiniMax-M2.5"
    | "kimi" => "kimi-k2.5"
    | "kimi-code" => "kimi-for-coding"
    | "litellm" => "gpt-4.1"
    | _ => "gpt-4.1"

end AIConfig

/-- Resolving a provider with no overrides: the `AIConfig` built by
`chat_stream`/`chat` when the caller supplies only a provider name. -/
def resolve (provider : String) : String × String :=
  let c : AIConfig := ⟨provider, none, none⟩
  (c.get_base_url, c.get_default_model)

/-- The provider strings enumerated by the resolver table. -/
def providerTable : List String :=
  ["openai", "anthropic", "gemini", "xai", "deepseek", "qwen", "glm",
   "glm-code", "minimax", "minimax-code", "kimi", "kimi-code", "litellm"]

end AiDoc

namespace AiDoc

/-- **C5.** Every provider in the resolver table resolves, with no
base-url and no model override, to exactly the base URL and default model
of the source tables in `AIConfig::get_base_url` /
`AIConfig::get_default_model`, and every provider string outside the
table resolves to the OpenAI defaults
(`https://api.openai.com/v1`, `gpt-4.1`) rather than to an error. -/
theorem resolver_table_and_fallback :
    resolve "openai" = ("https://api.openai.com/v1", "gpt-4.1") ∧
    resolve "anthropic" = ("https://api.anthropic.com/v1", "claude-opus-4-6") ∧
    resolve "gemini" =
      ("https://generativelanguage.googleapis.com/v1beta/openai", "gemini-3-flash-preview") ∧
    resolve "xai" = ("https://api.x.ai/v1", "grok-4-0709") ∧
    resolve "deepseek" = ("https://api.deepseek.com", "deepseek-chat") ∧
    resolve "qwen" = ("https://dashscope.aliyuncs.com/compatible-mode/v1", "qwen3-max") ∧
    resolve "glm" = ("https://open.bigmodel.cn/api/paas/v4", "glm-5") ∧
    resolve "glm-code" = ("https://open.bigmodel.cn/api/coding/paas/v4", "GLM-5") ∧
    resolve "minimax" = ("https://api.minimaxi.com/v1", "MiniMax-M2.5") ∧
    resolve "minimax-code" = ("https://api.minimaxi.com/v1", "MiniMax-M2.5") ∧
    resolve "kimi" = ("https://api.moonshot.cn/v1", "kimi-k2.5") ∧
    resolve "kimi-code" = ("https://api.kimi.com/coding/v1", "kimi-for-coding") ∧
    resolve "litellm" = ("http://localhost:4000", "gpt-4.1") ∧
    ∀ p : String, p ∉ providerTable →
      resolve p = ("https://api.openai.com/v1", "gpt-4.1") := by
  refine ⟨rfl, rfl, rfl, rfl, rfl, rfl, rfl, rfl, rfl, rfl, rfl, rfl, rfl, ?_⟩
  intro p hp
  simp only [providerTable, List.mem_cons, List.not_mem_nil, or_false, not_or] at hp
  obtain ⟨h1, h2, h3, h4, h5, h6, h7, h8, h9, h10, h11, h12, h13⟩ := hp
  have hb : (AIConfig.mk p none none).get_base_url = "https://api.openai.com/v1" := by
    simp only [AIConfig.get_base_url]
  have hm : (AIConfig.mk p none none).get_default_model = "gpt-4.1" := by
    simp only [AIConfig.get_default_model]
  simp [resolve, hb, hm]

/-- **C5 witness.** The fallback clause applied to a concrete unknown
provider string. -/
theorem resolver_table_and_fallback_witness :
    resolve "no-such-provider" = ("https://api.openai.com/v1", "gpt-4.1") := by
  have h := resolver_table_and_fallback
  exact h.2.2.2.2.2.2.2.2.2.2.2.2.2 "no-such-provider" (by decide)

/-! ## Stream session registry (`commands/ai.rs`, `STREAM_STATES`) -/

/-- The process-wide table `STREAM_STATES`: a map from request id to the
session's cancellation flag, modelled as a partial function (`none` means
no entry is registered for that id). -/
def Registry := String → Option Bool

namespace Registry

/-- Registration performed at the start of `chat_stream`:
`states.insert(req_id.clone(), AtomicBool::new(false))`. -/
def register (id : String) (r : Registry) : Registry :=
  fun k => if k = id then some false else r k

/-- The `Some(id)` branch of `stop_ai_stream`: store `true` into the flag
of the entry for `id`, if one exists; otherwise do nothing. -/
def cancelOne (id : String) (r : Registry) : Registry :=
  fun k => if k = id then (r k).map (fun _ => true) else r k

/-- The `None` branch of `stop_ai_stream`: store `true` into the flag of
every registered entry. -/
def cancelAll (r : Registry) : Registry :=
  fun k => (r k).map (fun _ => true)

/-- Embedding of the `stop_ai_stream` command (`commands/ai.rs`). -/
def stop_ai_stream (request_id : Option String) (r : Registry) : Registry :=
  match request_id with
  | some id => cancelOne id r
  | none => cancelAll r

/-- Embedding of `is_stream_cancelled` (`commands/ai.rs`): reads the flag
of the entry for `id`, returning `false` when no entry exists. -/
def is_stream_cancelled (id : String) (r : Registry) : Bool :=
  match r id with
  | some b => b
  | none => false

/-- Embedding of `cleanup_stream` (`commands/ai.rs`): removes the entry
for `id`. -/
def cleanup_stream (id : String) (r : Registry) : Registry :=
  fun k => if k = id then none else r k

end Registry

/-- The registry key of a `chat_stream` invocation:
`request_id.clone().unwrap_or_default()` (`commands/ai.rs`). -/
def session_key (request_id : Option String) : String :=
  request_id.getD ""

/-- Model of the registry lifecycle of one `chat_stream` invocation
(`commands/ai.rs`).  At entry the session is registered under
`session_key request_id`; the local `StreamGuard` value holds the id, and
its `Drop` implementation calls `cleanup_stream` when the call returns on
any path (normal completion, HTTP error, decode/size-limit error,
cancellation, the early-return provider routes).  The body's outcome is
abstracted as the `outcome` argument, so the quantification over
`outcome` ranges exactly over the exit paths. -/
def chat_stream_sessions (request_id : Option String) (r : Registry)
    (outcome : Except String String) : Except String String × Registry :=
  let req_id := session_key request_id
  let r1 := Registry.register req_id r
  (outcome, Registry.cleanup_stream req_id r1)

/-- **C8.** Cancelling an unregistered id is a no-op; cancelling a
registered id sets only that session's flag; `cancelAll`
(`stop_ai_stream None`) sets the flag of every registered session and
creates none; and a session registered after a `cancelAll` starts with
`cancelled = false`, unaffected by the earlier `cancelAll`. -/
theorem registry_cancel_semantics :
    ∀ r : Registry, ∀ id : String,
    (r id = none → ∀ k, Registry.stop_ai_stream (some id) r k = r k) ∧
    (∀ b, r id = some b →
      Registry.stop_ai_stream (some id) r id = some true ∧
      ∀ k, k ≠ id → Registry.stop_ai_stream (some id) r k = r k) ∧
    (∀ k b, r k = some b → Registry.stop_ai_stream none r k = some true) ∧
    (∀ k, r k = none → Registry.stop_ai_stream none r k = none) ∧
    ((Registry.register id (Registry.stop_ai_stream none r)) id = some false ∧
      Registry.is_stream_cancelled id
        (Registry.register id (Registry.stop_ai_stream none r)) = false) := by
  intro r id
  refine ⟨?_, ?_, ?_, ?_, ?_, ?_⟩
  · intro h k
    simp only [Registry.stop_ai_stream, Registry.cancelOne]
    by_cases hk : k = id
    · subst hk; simp [h]
    · simp [hk]
  · intro b hb
    refine ⟨?_, ?_⟩
    · simp [Registry.stop_ai_stream, Registry.cancelOne, hb]
    · intro k hk
      simp [Registry.stop_ai_stream, Registry.cancelOne, hk]
  · intro k b hb
    simp [Registry.stop_ai_stream, Registry.cancelAll, hb]
  · intro k hk
    simp [Registry.stop_ai_stream, Registry.cancelAll, hk]
  · simp [Registry.register]
  · simp [Registry.is_stream_cancelled, Registry.register]

/-- **C8 witness.** The conditional clauses of `registry_cancel_semantics`
discharged on a concrete registry with sessions "a" and "b" in flight. -/
theorem registry_cancel_semantics_witness :
    (Registry.stop_ai_stream (some "c")
        (fun k => if k = "a" ∨ k = "b" then some false else none) "c" = none) ∧
    (Registry.stop_ai_stream (some "a")
        (fun k => if k = "a" ∨ k = "b" then some false else none) "a" = some true) ∧
    (Registry.stop_ai_stream none
        (fun k => if k = "a" ∨ k = "b" then some false else none) "b" = some true) := by
  have h := registry_cancel_semantics
    (fun k => if k = "a" ∨ k = "b" then some false else none)
  refine ⟨(h "c").1 (by decide) "c", ((h "a").2.1 false (by decide)).1, ?_⟩
  exact (h "b").2.2.1 "b" false (by decide)

/-- **C9.** Every `chat_stream` invocation leaves the registry with its
own session entry removed, whatever the outcome (exit path) of the call,
and leaves the entry of every other id exactly as it was: the
`StreamGuard`'s `Drop` runs `cleanup_stream` on the session key on every
exit path, and `cleanup_stream` removes only that key. -/
theorem chat_stream_cleanup_frame :
    ∀ (request_id : Option String) (r : Registry) (outcome : Except String String),
    (chat_stream_sessions request_id r outcome).2 (session_key request_id) = none ∧
    (∀ k, k ≠ session_key request_id →
      (chat_stream_sessions request_id r outcome).2 k = r k) ∧
    (chat_stream_sessions request_id r outcome).1 = outcome := by
  intro request_id r outcome
  refine ⟨?_, ?_, rfl⟩
  · simp [chat_stream_sessions, Registry.cleanup_stream]
  · intro k hk
    simp [chat_stream_sessions, Registry.cleanup_stream, Registry.register, hk]

/-- **C9 witness.** The frame clause at a concrete foreign key, on a
concrete registry holding another in-flight session. -/
theorem chat_stream_cleanup_frame_witness :
    (chat_stream_sessions (some "s1")
        (fun k => if k = "other" then some false else none)
        (Except.error "Stream failed (500): boom")).2 "other" = some false := by
  have h := chat_stream_cleanup_frame (some "s1")
    (fun k => if k = "other" then some false else none)
    (Except.error "Stream failed (500): boom")
  exact (h.2.1 "other" (by decide)).trans (by decide)

/-- **C10.** A `chat_stream` invocation with `request_id = None` registers
its session under the empty string, so every session started without a
request id shares that single entry: cancelling the empty-string id sets
the shared flag, and one such call's cleanup removes the shared entry;
and reading the cancellation flag of any id absent from the registry
yields `false`, not an error. -/
theorem chat_stream_none_request_id :
    ∀ r : Registry,
    session_key none = "" ∧
    (Registry.register (session_key none) r) "" = some false ∧
    Registry.is_stream_cancelled ""
      (Registry.cancelOne "" (Registry.register (session_key none) r)) = true ∧
    (chat_stream_sessions none (Registry.register (session_key none) r)
        (Except.ok "")).2 "" = none ∧
    (∀ id, r id = none → Registry.is_stream_cancelled id r = false) := by
  intro r
  refine ⟨rfl, ?_, ?_, ?_, ?_⟩
  · simp [Registry.register, session_key]
  · simp [Registry.is_stream_cancelled, Registry.cancelOne, Registry.register, session_key]
  · simp [chat_stream_sessions, Registry.cleanup_stream, session_key]
  · intro id hid
    simp [Registry.is_stream_cancelled, hid]

/-- **C10 witness.** The absent-id clause discharged on the empty
registry at a concrete id. -/
theorem chat_stream_none_request_id_witness :
    Registry.is_stream_cancelled "ghost" (fun _ => none) = false := by
  exact ((chat_stream_none_request_id (fun _ => none)).2.2.2.2) "ghost" rfl

/-! ## Tool execution sandbox (`tools.rs`)

String positions: the Rust source slices `&str` values at byte offsets;
the model works with character positions (`List Char`), which coincides
with the source on ASCII text.  `content.len()` (a byte count in Rust) is
modelled by `utf8Len`, the UTF-8 byte length. -/

/-- UTF-8 byte size of one scalar value. -/
def charUtf8Size (c : Char) : Nat :=
  if c.toNat < 0x80 then 1
  else if c.toNat < 0x800 then 2
  else if c.toNat < 0x10000 then 3
  else 4

/-- Model of Rust `String::len`: the UTF-8 byte length. -/
def utf8Len (s : String) : Nat :=
  s.data.foldl (fun n c => n + charUtf8Size c) 0

/-- Model of Rust `str::find(&str)`: index of the leftmost occurrence of
`needle` in `hay` (character position). -/
def findSub (hay needle : List Char) : Option Nat :=
  (List.range (hay.length + 1)).find? (fun i => needle.isPrefixOf (hay.drop i))

/-- Model of Rust `str::contains(&str)`. -/
def strContains (hay needle : String) : Bool :=
  (findSub hay.data needle.data).isSome

/-- Model of Rust `str::rfind(char::is_whitespace)`: index of the
rightmost whitespace character. -/
def rfindWhitespace (l : List Char) : Option Nat :=
  match l.reverse.findIdx? (fun c => c.isWhitespace) with
  | some j => some (l.length - 1 - j)
  | none => none

/-- `true` exactly on `Json.obj` values. -/
def Json.isObj : Json → Bool
  | .obj _ => true
  | _ => false

/-- The string field of a document object, defaulting to `""`
(`doc.get(..).and_then(as_str).unwrap_or("")` in `tools.rs`). -/
def docField (doc : Json) (k : String) : String :=
  ((doc.get k).bind Json.asStr).getD ""

/-- The snippet computed by `execute_search_documents` for one matching
document (`tools.rs`): a ±50-character window around the first
case-insensitive occurrence of the query, moved forward to the nearest
whitespace boundary on the left; the first 100 characters when the match
was in the title only.  This is a totalized character-position
abstraction of the source, kept for the tool-loop transcript model
(`execute_tool`); the source computes the window in *byte* offsets and
its slicing can panic mid-character — the byte-faithful fallible
embedding of the same lines is `Bytes.snippetOf` below, and the claims
about the search tool itself are settled over that embedding. -/
def searchSnippet (query queryLower content : String) : String :=
  match findSub content.toLower.data queryLower.data with
  | some pos =>
    let start0 := pos - 50
    let endPos := min (pos + query.length + 50) content.length
    let start :=
      match rfindWhitespace (content.data.take start0) with
      | some q => q + 1
      | none => start0
    String.mk (((content.data.take (min endPos content.length))).drop start)
  | none => String.mk (content.data.take 100)

/-- The document scan of `execute_search_documents` (`tools.rs`): walk
the snapshot in order, append a result object per case-insensitive match
on title or content, stop as soon as 10 results are collected. -/
def searchGo (query queryLower : String) : List Json → List Json → List Json
  | [], acc => acc
  | doc :: rest, acc =>
    let title := docField doc "title"
    let content := docField doc "content"
    let id := docField doc "id"
    if strContains title.toLower queryLower || strContains content.toLower queryLower then
      let acc2 := acc ++ [Json.obj [("id", .str id), ("title", .str title),
        ("snippet", .str (searchSnippet query queryLower content))]]
      if 10 ≤ acc2.length then acc2 else searchGo query queryLower rest acc2
    else searchGo query queryLower rest acc

/-- Embedding of `execute_search_documents` (`tools.rs`).  `p` models
`serde_json::from_str` on the arguments string; the source serializes the
result value with `.to_string()`, the model returns the value. -/
def execute_search_documents (p : String → Option Json) (arguments : String)
    (documents : List Json) : Json :=
  let args := (p arguments).getD (Json.obj [])
  let query := ((args.get "query").bind Json.asStr).getD ""
  if query = "" then
    Json.obj [("results", .arr []), ("message", .str "搜索关键词为空")]
  else
    let results := searchGo query query.toLower documents []
    Json.obj [("results", .arr results), ("total", .num results.length)]

/-- Embedding of `execute_read_document` (`tools.rs`). -/
def execute_read_document (p : String → Option Json) (arguments : String)
    (documents : List Json) : Json :=
  let args := (p arguments).getD (Json.obj [])
  let docId := ((args.get "document_id").bind Json.asStr).getD ""
  if docId = "" then
    Json.obj [("error", .str "文档 ID 为空")]
  else
    match documents.find? (fun d => docField d "id" == docId) with
    | some doc =>
      Json.obj [("id", .str (docField doc "id")), ("title", .str (docField doc "title")),
        ("content", .str (docField doc "content")),
        ("char_count", .num (utf8Len (docField doc "content")))]
    | none => Json.obj [("error", .str ("未找到文档: " ++ docId))]

/-- Embedding of `execute_get_document_stats` (`tools.rs`). -/
def execute_get_document_stats (documents : List Json) : Json :=
  let totalDocs := documents.length
  let totalChars := (documents.filterMap (fun d => (d.get "content").bind Json.asStr)).foldl
    (fun n c => n + utf8Len c) 0
  let docList := documents.filterMap (fun d => do
    let id ← (d.get "id").bind Json.asStr
    let title ← (d.get "title").bind Json.asStr
    let content := ((d.get "content").bind Json.asStr).getD ""
    some (Json.obj [("id", .str id), ("title", .str title),
      ("char_count", .num (utf8Len content))]))
  Json.obj [("total_documents", .num totalDocs), ("total_characters", .num totalChars),
    ("documents", .arr docList)]

/-! ### Byte-faithful model of the search tool (`tools.rs:110-152`)

The snippet path of `execute_search_documents` computes *byte* offsets
into `content.to_lowercase()` and then slices the original `content`
with them (`&content[..start]`, `&content[start..end]`); Rust string
slicing panics when an offset falls inside a multibyte character (and
`rfind(..).map(|p| p + 1)` can produce such an offset when the last
whitespace character is itself multibyte).  The definitions below keep
byte arithmetic and fallible slicing: `none` is the panic.  Lowercasing
is modelled character-wise with the ASCII mapping, which agrees with
Rust `str::to_lowercase` on ASCII characters and on characters without
a case mapping (such as CJK); every concrete instance used in the
theorems stays inside that fragment, where lowercasing is also
byte-length preserving as it is in the source. -/

namespace Bytes

/-- UTF-8 byte length of a character list (Rust `str::len`). -/
def byteLen (l : List Char) : Nat :=
  l.foldl (fun n c => n + charUtf8Size c) 0

/-- The characters of the first `n` bytes: `none` unless `n` lands on a
character boundary at or before the end (Rust `&s[..n]`, which panics
otherwise). -/
def byteTake : List Char → Nat → Option (List Char)
  | _, 0 => some []
  | [], _ + 1 => none
  | c :: cs, n + 1 =>
    if charUtf8Size c ≤ n + 1 then
      (byteTake cs (n + 1 - charUtf8Size c)).map (fun t => c :: t)
    else none

/-- The characters after the first `n` bytes: `none` unless `n` lands on
a character boundary at or before the end (Rust `&s[n..]`). -/
def byteDrop : List Char → Nat → Option (List Char)
  | cs, 0 => some cs
  | [], _ + 1 => none
  | c :: cs, n + 1 =>
    if charUtf8Size c ≤ n + 1 then byteDrop cs (n + 1 - charUtf8Size c)
    else none

/-- Rust `&s[a..b]`: defined exactly when `a ≤ b` and both offsets are
character boundaries within the string; `none` is the slicing panic. -/
def byteSlice (cs : List Char) (a b : Nat) : Option (List Char) :=
  if a ≤ b then (byteDrop cs a).bind (fun t => byteTake t (b - a)) else none

/-- Rust `char::is_whitespace`: the Unicode `White_Space` code points. -/
def isWhitespaceChar (c : Char) : Bool :=
  let n := c.toNat
  (0x09 ≤ n && n ≤ 0x0D) || n == 0x20 || n == 0x85 || n == 0xA0 ||
  n == 0x1680 || (0x2000 ≤ n && n ≤ 0x200A) || n == 0x2028 || n == 0x2029 ||
  n == 0x202F || n == 0x205F || n == 0x3000

/-- Rust `str::rfind(char::is_whitespace)`: the byte offset of the start
of the last whitespace character. -/
def rfindWhitespaceB : List Char → Option Nat
  | [] => none
  | c :: t =>
    match rfindWhitespaceB t with
    | some p => some (charUtf8Size c + p)
    | none => if isWhitespaceChar c then some 0 else none

/-- Rust `str::find(&str)`: the byte offset of the first occurrence of
`needle`.  Valid UTF-8 occurrences always start on a character boundary
(no continuation byte equals a lead byte), so scanning character
positions and summing byte sizes is byte-exact. -/
def findSubB (needle : List Char) : List Char → Option Nat
  | [] => if needle.isPrefixOf ([] : List Char) then some 0 else none
  | c :: t =>
    if needle.isPrefixOf (c :: t) then some 0
    else (findSubB needle t).map (fun p => charUtf8Size c + p)

/-- Rust `str::contains(&str)` on lowered character lists. -/
def containsB (needle hay : List Char) : Bool :=
  (findSubB needle hay).isSome

/-- Character-wise ASCII lowercasing (scope documented in the section
comment above). -/
def toLowerB (cs : List Char) : List Char :=
  cs.map Char.toLower

/-- Embedding of the snippet computation (`tools.rs:128-137`), byte
offsets and fallible slicing kept from the source:
`pos` is the byte offset of the match in the lowercased content,
`start = pos.saturating_sub(50)`, `end = (pos + query.len() + 50)
.min(content.len())`, then `content[..start]` is sliced (first possible
panic), `rfind(char::is_whitespace).map(|p| p + 1).unwrap_or(start)`
adjusts `start`, and `content[start..end.min(content.len())]` is sliced
(second possible panic); with no match in the content the first 100
characters are taken.  `none` models a panic. -/
def snippetOf (query queryLower content : List Char) : Option (List Char) :=
  match findSubB queryLower (toLowerB content) with
  | some pos =>
    let start0 := pos - 50
    let endPos := min (pos + byteLen query + 50) (byteLen content)
    (byteSlice content 0 start0).bind (fun pre =>
      let start :=
        match rfindWhitespaceB pre with
        | some p => p + 1
        | none => start0
      byteSlice content start (min endPos (byteLen content)))
  | none => some (content.take 100)

/-- The document scan of `execute_search_documents` (`tools.rs:121-149`)
over the byte-faithful snippet: walk the snapshot in order, append a
result object per case-insensitive match on title or content, stop as
soon as 10 results are collected; a snippet panic aborts the whole
call (`none`). -/
def searchGo (query queryLower : List Char) : List Json → List Json → Option (List Json)
  | [], acc => some acc
  | doc :: rest, acc =>
    let title := docField doc "title"
    let content := docField doc "content"
    let id := docField doc "id"
    if containsB queryLower (toLowerB title.data) ||
        containsB queryLower (toLowerB content.data) then
      match snippetOf query queryLower content.data with
      | none => none
      | some sn =>
        let acc2 := acc ++ [Json.obj [("id", .str id), ("title", .str title),
          ("snippet", .str (String.mk sn))]]
        if 10 ≤ acc2.length then some acc2 else searchGo query queryLower rest acc2
    else searchGo query queryLower rest acc

/-- Byte-faithful embedding of `execute_search_documents`
(`tools.rs:110-152`).  `p` models `serde_json::from_str` on the
arguments string; the source serializes the result value with
`.to_string()`, the model returns the value; `none` models a panic in
the snippet slicing. -/
def execute_search_documents (p : String → Option Json) (arguments : String)
    (documents : List Json) : Option Json :=
  let args := (p arguments).getD (Json.obj [])
  let query := ((args.get "query").bind Json.asStr).getD ""
  if query = "" then
    some (Json.obj [("results", .arr []), ("message", .str "搜索关键词为空")])
  else
    (searchGo query.data (toLowerB query.data) documents []).map (fun results =>
      Json.obj [("results", .arr results), ("total", .num results.length)])

end Bytes

/-- **C7 counterexample.** Two refutations of the original claim over the
byte-faithful search model.  First, the empty-search-query failure is
not encoded as an `{"error": "..."}` payload: the source returns
`{"results": [], "message": "..."}`, an object with no `"error"` field.
Second, the search tool does not return for every document snapshot:
on a content of twenty 3-byte characters followed by the ASCII query,
the match sits at byte offset 60, `start = 60 - 50 = 10` is not a
character boundary, and `&content[..10]` panics (`tools.rs:132`). -/
theorem search_tool_counterexample :
    Bytes.execute_search_documents (fun _ => none) "{}" [] =
      some (Json.obj [("results", .arr []), ("message", .str "搜索关键词为空")]) ∧
    (Json.obj [("results", .arr []), ("message", .str "搜索关键词为空")]).get "error" = none ∧
    Bytes.execute_search_documents
      (fun _ => some (Json.obj [("query", .str "query")])) "a"
      [Json.obj [("id", .str "d1"), ("title", .str "t"),
        ("content", .str "中中中中中中中中中中中中中中中中中中中中query")]] = none := by
  exact ⟨rfl, rfl, rfl⟩

/-- **C7 amended.** For every arguments string and document snapshot:
`read_document` and `get_document_stats` return a JSON object (they
never panic); a missing/empty document id is encoded as an
`{"error": "..."}` payload; an empty search query is encoded as the
in-band `{"results": [], "message": "..."}` payload, not as an error
payload; and whenever the search tool returns at all (its snippet
slicing can panic on multibyte content, see the counterexample) the
result is a JSON object. -/
theorem tools_shape_and_failures_encoded :
    ∀ (p : String → Option Json) (arguments : String) (documents : List Json),
    (execute_read_document p arguments documents).isObj = true ∧
    (execute_get_document_stats documents).isObj = true ∧
    (∀ r, Bytes.execute_search_documents p arguments documents = some r →
      r.isObj = true) ∧
    (((((p arguments).getD (Json.obj [])).get "query").bind Json.asStr).getD "" = "" →
      Bytes.execute_search_documents p arguments documents =
        some (Json.obj [("results", .arr []), ("message", .str "搜索关键词为空")])) ∧
    (((((p arguments).getD (Json.obj [])).get "document_id").bind Json.asStr).getD "" = "" →
      execute_read_document p arguments documents =
        Json.obj [("error", .str "文档 ID 为空")]) := by
  intro p arguments documents
  refine ⟨?_, rfl, ?_, ?_, ?_⟩
  · simp only [execute_read_document]
    split
    · rfl
    · split <;> rfl
  · intro r h
    simp only [Bytes.execute_search_documents] at h
    by_cases hq : ((((p arguments).getD (Json.obj [])).get "query").bind Json.asStr).getD "" = ""
    · rw [if_pos hq] at h
      cases h
      rfl
    · rw [if_neg hq] at h
      obtain ⟨res, _, hr⟩ := Option.map_eq_some'.mp h
      rw [← hr]
      rfl
  · intro hq
    simp only [Bytes.execute_search_documents]
    rw [if_pos hq]
  · intro hd
    simp only [execute_read_document, hd]
    rfl

/-- **C7 amended witness.** The conditional clauses at concrete inputs:
an empty query, an empty document id, and a successful all-ASCII search
whose returned value the shape clause classifies as an object. -/
theorem tools_shape_and_failures_encoded_witness :
    Bytes.execute_search_documents (fun _ => some (Json.obj [("query", .str "")])) "a" [] =
      some (Json.obj [("results", .arr []), ("message", .str "搜索关键词为空")]) ∧
    execute_read_document (fun _ => none) "bad json" [] =
      Json.obj [("error", .str "文档 ID 为空")] ∧
    (Json.obj [("results", .arr [Json.obj [("id", .str "d1"), ("title", .str "note"),
        ("snippet", .str "hello world")]]), ("total", .num 1)]).isObj = true := by
  refine ⟨?_, ?_, ?_⟩
  · exact (tools_shape_and_failures_encoded
      (fun _ => some (Json.obj [("query", .str "")])) "a" []).2.2.2.1 rfl
  · exact (tools_shape_and_failures_encoded (fun _ => none) "bad json" []).2.2.2.2 rfl
  · exact (tools_shape_and_failures_encoded
      (fun _ => some (Json.obj [("query", .str "world")])) "a"
      [Json.obj [("id", .str "d1"), ("title", .str "note"),
        ("content", .str "hello world")]]).2.2.1
      (Json.obj [("results", .arr [Json.obj [("id", .str "d1"), ("title", .str "note"),
        ("snippet", .str "hello world")]]), ("total", .num 1)]) rfl

/-! ## Tool-calling orchestrator (`commands/ai.rs`, `chat_stream` tool loop)

The non-streaming HTTP round trip of each round is abstracted as an
oracle `Nat → Except String Json` from round number to the parsed
response body (`.error` covering both a failed send and an unparsable
body, whose message the source formats into the returned error).  The
`🔧` progress notification emitted to the window before executing tools
carries no transcript content and is not modelled. -/

/-- `MAX_BUFFER_SIZE` (`commands/ai.rs` line 19): 10 MiB. -/
def MAX_BUFFER_SIZE : Nat := 10 * 1024 * 1024

/-- One item yielded by `response.bytes_stream()`. -/
abbrev Chunk := Except String (List Nat)

/-- Decoder state of one streaming call: the accumulator `full_content`,
the retained byte buffer, the `in_reasoning` flag (used only by the Chat
Completions decoder), the cancellation-read clock, and the contents of
the `ai:stream:chunk` events emitted so far. -/
structure DecSt where
  fullContent : String
  buffer : List Nat
  inReasoning : Bool
  clock : Nat
  events : List String

/-- The state at the start of a streaming call. -/
def initSt : DecSt := ⟨"", [], false, 0, []⟩

/-- Emit one `ai:stream:chunk` event carrying `t` and append `t` to the
accumulator (`window.emit(..)` plus `full_content.push_str(..)`). -/
def emitAppend (s : DecSt) (t : String) : DecSt :=
  { s with fullContent := s.fullContent ++ t, events := s.events ++ [t] }

/-- UTF-8 lossy decoding of one byte (ASCII model). -/
def byteToChar (b : Nat) : Char :=
  if b < 128 then Char.ofNat b else '�'

/-- `String::from_utf8_lossy` on the drained line bytes (ASCII model). -/
def bytesToString (l : List Nat) : String :=
  String.mk (l.map byteToChar)

/-- Rust `str::trim_end_matches(c)`: remove every trailing `c`. -/
def trimEndMatchesChar (c : Char) (s : String) : String :=
  String.mk ((s.data.reverse.dropWhile (fun x => x == c)).reverse)

/-- The `line_str.strip_prefix("data: ")` step: the payload after the
`data: ` marker, or `none` for any other line. -/
def dataPayload (s : String) : Option String :=
  if "data: ".data.isPrefixOf s.data then some (String.mk (s.data.drop 6)) else none

/-- The inner `while let Some(pos) = buffer.iter().position(|&b| b == b'\n')`
drain loop, parameterised by the per-format line handler `h` (which
returns the new state and whether it executed the handler's `break`).
`fuel` bounds the iterations; every call site passes the buffer length,
which always suffices since each iteration drops at least one byte. -/
def drainLoop (h : String → DecSt → DecSt × Bool) : Nat → DecSt → DecSt × Bool
  | 0, s => (s, false)
  | fuel + 1, s =>
    match s.buffer.findIdx? (fun b => b == 10) with
    | none => (s, false)
    | some pos =>
      let lineBytes := s.buffer.take (pos + 1)
      let s1 := { s with buffer := s.buffer.drop (pos + 1) }
      let lineStr := trimEndMatchesChar '\r' (trimEndMatchesChar '\n' (bytesToString lineBytes))
      if lineStr = "" then drainLoop h fuel s1
      else
        match dataPayload lineStr with
        | none => drainLoop h fuel s1
        | some d =>
          let r := h d s1
          if r.2 then (r.1, true) else drainLoop h fuel r.1

/-- The outer `while let Some(chunk_result) = stream.next().await` loop
shared by the three decoders: per chunk, one cancellation read (break on
`true`), the transport-error propagation, the `MAX_BUFFER_SIZE` cap check
(abort with `sizeMsg` *without* appending), the append, and the drain
loop. -/
def runChunks (h : String → DecSt → DecSt × Bool) (cancel : Nat → Bool)
    (sizeMsg : String) : DecSt → List Chunk → Except String DecSt
  | s, [] => .ok s
  | s, c :: rest =>
    let s0 := { s with clock := s.clock + 1 }
    if cancel s.clock then .ok s0
    else
      match c with
      | .error e => .error ("Stream error: " ++ e)
      | .ok bytes =>
        if MAX_BUFFER_SIZE < s0.buffer.length + bytes.length then .error sizeMsg
        else
          let s1 := { s0 with buffer := s0.buffer ++ bytes }
          runChunks h cancel sizeMsg (drainLoop h s1.buffer.length s1).1 rest

/-- The two delta-field blocks of the `stream_sse_chat_completions` line
handling (`commands/ai.rs`), applied after the cancellation read:
`choices[0].delta.reasoning_content` first (opening the `<think>` section
on its first non-empty token), then `choices[0].delta.content` (closing
the section on the transition). -/
def applyDeltaCC (delta : Json) (s : DecSt) : DecSt :=
  let sB :=
    match (delta.get "reasoning_content").bind Json.asStr with
    | some r =>
      if r ≠ "" then
        let sO := if s.inReasoning then s
          else { emitAppend s "<think>" with inReasoning := true }
        emitAppend sO r
      else s
    | none => s
  match (delta.get "content").bind Json.asStr with
  | some c =>
    if c ≠ "" then
      let sX := if sB.inReasoning then { emitAppend sB "</think>" with inReasoning := false }
        else sB
      emitAppend sX c
    else sB
  | none => sB

/-- The per-line handler of `stream_sse_chat_completions`
(`commands/ai.rs`): `[DONE]` closes an open reasoning section; otherwise
the payload is parsed (`p` models `serde_json::from_str`) and
`choices[0].delta` handled by `applyDeltaCC`.  The `Bool` result is the
`break` executed when the cancellation flag is read as set before the
delta is handled. -/
def handleDataCC (p : String → Option Json) (cancel : Nat → Bool) (d : String)
    (s : DecSt) : DecSt × Bool :=
  if d = "[DONE]" then
    if s.inReasoning then ({ emitAppend s "</think>" with inReasoning := false }, false)
    else (s, false)
  else
    match p d with
    | none => (s, false)
    | some j =>
      match ((j.get "choices").bind (fun c => c.getIdx 0)).bind (fun c => c.get "delta") with
      | none => (s, false)
      | some delta =>
        if cancel s.clock then ({ s with clock := s.clock + 1 }, true)
        else (applyDeltaCC delta { s with clock := s.clock + 1 }, false)

/-- The `in_reasoning` close-off after the stream ends
(`stream_sse_chat_completions`, end of function). -/
def finalizeCC (s : DecSt) : DecSt :=
  if s.inReasoning then emitAppend s "</think>" else s

/-- Embedding of `stream_sse_chat_completions` (`commands/ai.rs`):
returns the accumulated text and the emitted event contents, or the
error of the failing path. -/
def stream_sse_chat_completions (p : String → Option Json) (cancel : Nat → Bool)
    (chunks : List Chunk) : Except String (String × List String) :=
  match runChunks (handleDataCC p cancel) cancel
      "Response too large, exceeded buffer limit" initSt chunks with
  | .error e => .error e
  | .ok s => .ok ((finalizeCC s).fullContent, (finalizeCC s).events)

/-- The per-line handler of `stream_anthropic_with_search`
(`commands/ai.rs`): dispatch on `type == "content_block_delta"`, then on
`delta.type`; `text_delta` yields its `text` as content,
`thinking_delta` yields its `thinking` wrapped as `<think>..</think>`.
The cancellation read guards each emission but never breaks the drain
loop (and is short-circuited away when the text is empty). -/
def handleDataA (p : String → Option Json) (cancel : Nat → Bool) (d : String)
    (s : DecSt) : DecSt × Bool :=
  match p d with
  | none => (s, false)
  | some j =>
    if (((j.get "type").bind Json.asStr).getD "") = "content_block_delta" then
      match j.get "delta" with
      | none => (s, false)
      | some delta =>
        let dt := ((delta.get "type").bind Json.asStr).getD ""
        if dt = "text_delta" then
          match (delta.get "text").bind Json.asStr with
          | some t =>
            if t ≠ "" then
              if cancel s.clock then ({ s with clock := s.clock + 1 }, false)
              else ({ emitAppend s t with clock := s.clock + 1 }, false)
            else (s, false)
          | none => (s, false)
        else if dt = "thinking_delta" then
          match (delta.get "thinking").bind Json.asStr with
          | some t =>
            if t ≠ "" then
              if cancel s.clock then ({ s with clock := s.clock + 1 }, false)
              else ({ emitAppend s ("<think>" ++ t ++ "</think>")
                with clock := s.clock + 1 }, false)
            else (s, false)
          | none => (s, false)
        else (s, false)
    else (s, false)

/-- Embedding of the SSE decoding loop of `stream_anthropic_with_search`
(`commands/ai.rs`): same framing, Anthropic line handler, no end-of-stream
close-off, size-cap message `"Response too large"`. -/
def stream_anthropic_with_search (p : String → Option Json) (cancel : Nat → Bool)
    (chunks : List Chunk) : Except String (String × List String) :=
  match runChunks (handleDataA p cancel) cancel "Response too large" initSt chunks with
  | .error e => .error e
  | .ok s => .ok (s.fullContent, s.events)

/-- ASCII bytes of a string (`str::as_bytes` on ASCII text). -/
def strBytes (s : String) : List Nat :=
  s.data.map Char.toNat

/-! ### The synthetic OpenAI Chat Completions stream of C1 -/

/-- Wire payload of a `reasoning_content: "a"` delta line. -/
def ccPayloadA : String := "\x7b\"choices\":[\x7b\"delta\":\x7b\"reasoning_content\":\"a\"\x7d\x7d]\x7d"

/-- Wire payload of a `reasoning_content: "b"` delta line. -/
def ccPayloadB : String := "\x7b\"choices\":[\x7b\"delta\":\x7b\"reasoning_content\":\"b\"\x7d\x7d]\x7d"

/-- Wire payload of a `content: "c"` delta line. -/
def ccPayloadC : String := "\x7b\"choices\":[\x7b\"delta\":\x7b\"content\":\"c\"\x7d\x7d]\x7d"

/-- Parsed value of `ccPayloadA`. -/
def ccJsonA : Json :=
  Json.obj [("choices", .arr [.obj [("delta", .obj [("reasoning_content", .str "a")])]])]

/-- Parsed value of `ccPayloadB`. -/
def ccJsonB : Json :=
  Json.obj [("choices", .arr [.obj [("delta", .obj [("reasoning_content", .str "b")])]])]

/-- Parsed value of `ccPayloadC`. -/
def ccJsonC : Json :=
  Json.obj [("choices", .arr [.obj [("delta", .obj [("content", .str "c")])]])]

/-- The full wire text of the synthetic stream: two reasoning deltas, one
content delta, the `[DONE]` sentinel. -/
def ccStream : String :=
  "data: " ++ ccPayloadA ++ "\n" ++ "data: " ++ ccPayloadB ++ "\n" ++
    "data: " ++ ccPayloadC ++ "\n" ++ "data: [DONE]\n"

end AiDoc

set_option maxRecDepth 10000

namespace AiDoc

/-! ### The synthetic Anthropic Messages stream of C6 -/

/-- Wire payload of a `thinking_delta: "x"` content-block delta line. -/
def aPayloadX : String :=
  "\x7b\"type\":\"content_block_delta\",\"delta\":\x7b\"type\":\"thinking_delta\",\"thinking\":\"x\"\x7d\x7d"

/-- Wire payload of a `text_delta: "y"` content-block delta line. -/
def aPayloadY : String :=
  "\x7b\"type\":\"content_block_delta\",\"delta\":\x7b\"type\":\"text_delta\",\"text\":\"y\"\x7d\x7d"

/-- Parsed value of `aPayloadX`. -/
def aJsonX : Json :=
  Json.obj [("type", .str "content_block_delta"),
    ("delta", .obj [("type", .str "thinking_delta"), ("thinking", .str "x")])]

/-- Parsed value of `aPayloadY`. -/
def aJsonY : Json :=
  Json.obj [("type", .str "content_block_delta"),
    ("delta", .obj [("type", .str "text_delta"), ("text", .str "y")])]

/-- The full wire text of the synthetic Anthropic stream: one thinking
delta, one text delta. -/
def aStream : String :=
  "data: " ++ aPayloadX ++ "\n" ++ "data: " ++ aPayloadY ++ "\n"

/-! ### The buffer cap (C2) -/

/-- A buffer containing no newline byte completes no line: the drain
loop returns it untouched. -/
theorem drainLoop_no_newline (hdl : String → DecSt → DecSt × Bool) (fuel : Nat)
    (s : DecSt) (hb : ∀ b ∈ s.buffer, b ≠ 10) :
    drainLoop hdl fuel s = (s, false) := by
  have hnone : s.buffer.findIdx? (fun b => b == 10) = none := by
    rw [List.findIdx?_eq_none_iff]
    intro x hx
    simp [hb x hx]
  cases fuel with
  | zero => rfl
  | succ n => simp only [drainLoop, hnone]

/-- Under newline-free input, the retained buffer is exactly the
concatenation of the chunks accepted so far; as soon as it plus the next
chunk would cross `MAX_BUFFER_SIZE`, the loop aborts with the size
message. -/
theorem runChunks_no_newline_overflow (hdl : String → DecSt → DecSt × Bool)
    (msg : String) :
    ∀ (chunks : List (List Nat)) (s : DecSt),
    (∀ c ∈ chunks, ∀ b ∈ c, b ≠ 10) →
    (∀ b ∈ s.buffer, b ≠ 10) →
    s.buffer.length ≤ MAX_BUFFER_SIZE →
    MAX_BUFFER_SIZE < s.buffer.length + (chunks.map List.length).sum →
    runChunks hdl (fun _ => false) msg s (chunks.map Except.ok) = .error msg := by
  intro chunks
  induction chunks with
  | nil =>
    intro s _ _ hle hlt
    simp only [List.map_nil, List.sum_nil, Nat.add_zero] at hlt
    omega
  | cons c rest ih =>
    intro s hc hb hle hlt
    simp only [List.map_cons, runChunks]
    by_cases hsz : MAX_BUFFER_SIZE < s.buffer.length + c.length
    · simp [hsz]
    · have hdrain := drainLoop_no_newline hdl (s.buffer ++ c).length
        ⟨s.fullContent, s.buffer ++ c, s.inReasoning, s.clock + 1, s.events⟩
        (by
          intro b hbmem
          rcases List.mem_append.mp hbmem with hmem | hmem
          · exact hb b hmem
          · exact hc c (List.mem_cons_self c rest) b hmem)
      simp only [hsz, if_false]
      rw [hdrain]
      exact ih ⟨s.fullContent, s.buffer ++ c, s.inReasoning, s.clock + 1, s.events⟩
        (fun c' hc' => hc c' (List.mem_cons_of_mem c hc'))
        (by
          intro b hbmem
          rcases List.mem_append.mp hbmem with hmem | hmem
          · exact hb b hmem
          · exact hc c (List.mem_cons_self c rest) b hmem)
        (by simp only [List.length_append]; omega)
        (by simp only [List.length_append, List.map_cons, List.sum_cons] at *; omega)

/-- Under newline-free input, a run that terminates without error never
retains more than `MAX_BUFFER_SIZE` bytes. -/
theorem runChunks_no_newline_bound (hdl : String → DecSt → DecSt × Bool)
    (msg : String) :
    ∀ (chunks : List (List Nat)) (s : DecSt),
    (∀ c ∈ chunks, ∀ b ∈ c, b ≠ 10) →
    (∀ b ∈ s.buffer, b ≠ 10) →
    s.buffer.length ≤ MAX_BUFFER_SIZE →
    ∀ s', runChunks hdl (fun _ => false) msg s (chunks.map Except.ok) = .ok s' →
      s'.buffer.length ≤ MAX_BUFFER_SIZE := by
  intro chunks
  induction chunks with
  | nil =>
    intro s _ _ hle s' hrun
    simp only [List.map_nil, runChunks] at hrun
    cases hrun
    exact hle
  | cons c rest ih =>
    intro s hc hb hle s' hrun
    simp only [List.map_cons, runChunks] at hrun
    by_cases hsz : MAX_BUFFER_SIZE < s.buffer.length + c.length
    · simp [hsz] at hrun
    · have hbb : ∀ b ∈ s.buffer ++ c, b ≠ 10 := by
        intro b hbmem
        rcases List.mem_append.mp hbmem with hmem | hmem
        · exact hb b hmem
        · exact hc c (List.mem_cons_self c rest) b hmem
      have hdrain := drainLoop_no_newline hdl (s.buffer ++ c).length
        ⟨s.fullContent, s.buffer ++ c, s.inReasoning, s.clock + 1, s.events⟩ hbb
      simp only [hsz, if_false] at hrun
      rw [hdrain] at hrun
      exact ih ⟨s.fullContent, s.buffer ++ c, s.inReasoning, s.clock + 1, s.events⟩
        (fun c' hc' => hc c' (List.mem_cons_of_mem c hc'))
        hbb
        (by simp only [List.length_append]; omega)
        s' hrun

/-- **C2.** For every sequence of received chunks in which no newline
byte appears, the Chat Completions decoder aborts with the size-limit
error `"Response too large, exceeded buffer limit"` as soon as the
cumulative size crosses the 10 MiB `MAX_BUFFER_SIZE` cap, and any run
that instead terminates normally retains at most `MAX_BUFFER_SIZE`
buffered bytes. -/
theorem sse_buffer_cap (p : String → Option Json) (chunks : List (List Nat))
    (hnl : ∀ c ∈ chunks, ∀ b ∈ c, b ≠ 10) :
    (MAX_BUFFER_SIZE < (chunks.map List.length).sum →
      stream_sse_chat_completions p (fun _ => false) (chunks.map Except.ok) =
        .error "Response too large, exceeded buffer limit") ∧
    (∀ s', runChunks (handleDataCC p (fun _ => false)) (fun _ => false)
        "Response too large, exceeded buffer limit" initSt (chunks.map Except.ok) =
          .ok s' →
      s'.buffer.length ≤ MAX_BUFFER_SIZE) := by
  constructor
  · intro hov
    unfold stream_sse_chat_completions
    rw [runChunks_no_newline_overflow (handleDataCC p (fun _ => false))
      "Response too large, exceeded buffer limit" chunks initSt hnl
      (by intro b hb; simp [initSt] at hb)
      (by simp [initSt])
      (by simpa [initSt] using hov)]
  · intro s' hrun
    exact runChunks_no_newline_bound (handleDataCC p (fun _ => false))
      "Response too large, exceeded buffer limit" chunks initSt hnl
      (by intro b hb; simp [initSt] at hb)
      (by simp [initSt]) s' hrun

/-- **C2 witness.** A single newline-free chunk one byte over the cap
aborts with the size-limit error. -/
theorem sse_buffer_cap_witness :
    stream_sse_chat_completions (fun _ => none) (fun _ => false)
      ([List.replicate (MAX_BUFFER_SIZE + 1) 65].map Except.ok) =
      .error "Response too large, exceeded buffer limit" := by
  refine (sse_buffer_cap (fun _ => none) [List.replicate (MAX_BUFFER_SIZE + 1) 65] ?_).1 ?_
  · intro c hc b hb
    simp only [List.mem_singleton] at hc
    subst hc
    have := List.eq_of_mem_replicate hb
    omega
  · simp

/-! ### Cancellation (C3)

The shared `AtomicBool` is only ever stored `true`, so once a read
returns `true` every later read does too; a flag that flips between the
`n`-th and `(n+1)`-th read is the function `cancelFrom n`. -/

/-- The cancellation flag as seen by the reads: set from the `n`-th read
of the session onwards. -/
def cancelFrom (n : Nat) : Nat → Bool := fun c => n ≤ c

/-- The delta application leaves the clock untouched. -/
theorem applyDeltaCC_clock (delta : Json) (s : DecSt) :
    (applyDeltaCC delta s).clock = s.clock := by
  rcases hr : (delta.get "reasoning_content").bind Json.asStr with _ | r <;>
    rcases hc : (delta.get "content").bind Json.asStr with _ | c <;>
    simp only [applyDeltaCC, hr, hc] <;>
    split_ifs <;>
    simp [emitAppend]

/-- With the flag never set, the line handler never executes its
`break`. -/
theorem handleDataCC_never_break (p : String → Option Json) (d : String) (s : DecSt) :
    (handleDataCC p (fun _ => false) d s).2 = false := by
  simp only [handleDataCC]
  split
  · split <;> rfl
  · split
    · rfl
    · split
      · rfl
      · simp

/-- The line handler never decreases the clock. -/
theorem handleDataCC_clock_le (p : String → Option Json) (cancel : Nat → Bool)
    (d : String) (s : DecSt) :
    s.clock ≤ (handleDataCC p cancel d s).1.clock := by
  simp only [handleDataCC]
  split
  · split <;> simp [emitAppend]
  · split
    · simp
    · split
      · simp
      · split
        · simp
        · simp [applyDeltaCC_clock]

/-- If the never-cancelled handling of a line ends at a clock within `n`,
the `cancelFrom n` flag is read as unset throughout it, so the handling
is unchanged. -/
theorem handleDataCC_cancelFrom_agree (p : String → Option Json) (n : Nat)
    (d : String) (s : DecSt)
    (hn : (handleDataCC p (fun _ => false) d s).1.clock ≤ n) :
    handleDataCC p (cancelFrom n) d s = handleDataCC p (fun _ => false) d s := by
  by_cases hd : d = "[DONE]"
  · simp [handleDataCC, hd]
  · rcases hpd : p d with _ | j
    · simp [handleDataCC, hd, hpd]
    · rcases hnav : ((j.get "choices").bind (fun c => c.getIdx 0)).bind
          (fun c => c.get "delta") with _ | delta
      · simp [handleDataCC, hd, hpd, hnav]
      · have hlt : s.clock < n := by
          simp only [handleDataCC, hd, hpd, hnav, if_false] at hn
          simp only [if_neg (by simp : ¬((fun _ => false) s.clock = true))] at hn
          simp only [applyDeltaCC_clock] at hn
          omega
        simp [handleDataCC, hd, hpd, hnav, cancelFrom, Nat.not_le.mpr hlt]

/-- The drain loop never decreases the clock. -/
theorem drainLoop_clock_le (p : String → Option Json) (cancel : Nat → Bool) :
    ∀ (fuel : Nat) (s : DecSt),
    s.clock ≤ (drainLoop (handleDataCC p cancel) fuel s).1.clock := by
  intro fuel
  induction fuel with
  | zero => intro s; simp [drainLoop]
  | succ m ih =>
    intro s
    rcases hfind : s.buffer.findIdx? (fun b => b == 10) with _ | pos
    · simp [drainLoop, hfind]
    · simp only [drainLoop, hfind]
      by_cases hstr : trimEndMatchesChar '\r' (trimEndMatchesChar '\n'
          (bytesToString (s.buffer.take (pos + 1)))) = ""
      · rw [if_pos hstr]
        exact ih ⟨s.fullContent, s.buffer.drop (pos + 1), s.inReasoning, s.clock, s.events⟩
      · rw [if_neg hstr]
        rcases hdp : dataPayload (trimEndMatchesChar '\r' (trimEndMatchesChar '\n'
            (bytesToString (s.buffer.take (pos + 1))))) with _ | d
        · simp only [hdp]
          exact ih ⟨s.fullContent, s.buffer.drop (pos + 1), s.inReasoning, s.clock, s.events⟩
        · simp only [hdp]
          split
          · exact handleDataCC_clock_le p cancel d
              ⟨s.fullContent, s.buffer.drop (pos + 1), s.inReasoning, s.clock, s.events⟩
          · exact le_trans
              (handleDataCC_clock_le p cancel d
                ⟨s.fullContent, s.buffer.drop (pos + 1), s.inReasoning, s.clock, s.events⟩)
              (ih (handleDataCC p cancel d
                ⟨s.fullContent, s.buffer.drop (pos + 1), s.inReasoning, s.clock, s.events⟩).1)

/-- If the never-cancelled drain of the buffer ends at a clock within
`n`, every cancellation read inside it happens at an earlier clock, so
draining under `cancelFrom n` is unchanged. -/
theorem drainLoop_cancelFrom_agree (p : String → Option Json) (n : Nat) :
    ∀ (fuel : Nat) (s : DecSt),
    (drainLoop (handleDataCC p (fun _ => false)) fuel s).1.clock ≤ n →
    drainLoop (handleDataCC p (cancelFrom n)) fuel s =
      drainLoop (handleDataCC p (fun _ => false)) fuel s := by
  intro fuel
  induction fuel with
  | zero => intro s _; rfl
  | succ m ih =>
    intro s hn
    rcases hfind : s.buffer.findIdx? (fun b => b == 10) with _ | pos
    · have eN : drainLoop (handleDataCC p (cancelFrom n)) (m + 1) s = (s, false) := by
        simp only [drainLoop, hfind]
      have eF : drainLoop (handleDataCC p (fun _ => false)) (m + 1) s = (s, false) := by
        simp only [drainLoop, hfind]
      rw [eN, eF]
    · by_cases hstr : trimEndMatchesChar '\r' (trimEndMatchesChar '\n'
          (bytesToString (s.buffer.take (pos + 1)))) = ""
      · have eN : drainLoop (handleDataCC p (cancelFrom n)) (m + 1) s =
            drainLoop (handleDataCC p (cancelFrom n)) m
              ⟨s.fullContent, s.buffer.drop (pos + 1), s.inReasoning, s.clock, s.events⟩ := by
          simp only [drainLoop, hfind]
          rw [if_pos hstr]
        have eF : drainLoop (handleDataCC p (fun _ => false)) (m + 1) s =
            drainLoop (handleDataCC p (fun _ => false)) m
              ⟨s.fullContent, s.buffer.drop (pos + 1), s.inReasoning, s.clock, s.events⟩ := by
          simp only [drainLoop, hfind]
          rw [if_pos hstr]
        rw [eF] at hn
        rw [eN, eF]
        exact ih _ hn
      · rcases hdp : dataPayload (trimEndMatchesChar '\r' (trimEndMatchesChar '\n'
            (bytesToString (s.buffer.take (pos + 1))))) with _ | d
        · have eN : drainLoop (handleDataCC p (cancelFrom n)) (m + 1) s =
              drainLoop (handleDataCC p (cancelFrom n)) m
                ⟨s.fullContent, s.buffer.drop (pos + 1), s.inReasoning, s.clock, s.events⟩ := by
            simp only [drainLoop, hfind]
            rw [if_neg hstr]
            simp only [hdp]
          have eF : drainLoop (handleDataCC p (fun _ => false)) (m + 1) s =
              drainLoop (handleDataCC p (fun _ => false)) m
                ⟨s.fullContent, s.buffer.drop (pos + 1), s.inReasoning, s.clock, s.events⟩ := by
            simp only [drainLoop, hfind]
            rw [if_neg hstr]
            simp only [hdp]
          rw [eF] at hn
          rw [eN, eF]
          exact ih _ hn
        · have eF : drainLoop (handleDataCC p (fun _ => false)) (m + 1) s =
              drainLoop (handleDataCC p (fun _ => false)) m
                (handleDataCC p (fun _ => false) d
                  ⟨s.fullContent, s.buffer.drop (pos + 1), s.inReasoning, s.clock,
                    s.events⟩).1 := by
            simp only [drainLoop, hfind]
            rw [if_neg hstr]
            simp only [hdp, handleDataCC_never_break, Bool.false_eq_true, if_false]
          rw [eF] at hn
          have hr1 : (handleDataCC p (fun _ => false) d
              ⟨s.fullContent, s.buffer.drop (pos + 1), s.inReasoning, s.clock,
                s.events⟩).1.clock ≤ n :=
            le_trans (drainLoop_clock_le p _ m _) hn
          have eN : drainLoop (handleDataCC p (cancelFrom n)) (m + 1) s =
              drainLoop (handleDataCC p (cancelFrom n)) m
                (handleDataCC p (fun _ => false) d
                  ⟨s.fullContent, s.buffer.drop (pos + 1), s.inReasoning, s.clock,
                    s.events⟩).1 := by
            simp only [drainLoop, hfind]
            rw [if_neg hstr]
            simp only [hdp]
            rw [handleDataCC_cancelFrom_agree p n d _ hr1]
            simp only [handleDataCC_never_break, Bool.false_eq_true, if_false]
          rw [eN, eF]
          exact ih _ hn

/-- The chunk loop never decreases the clock on a successful run. -/
theorem runChunks_cF_clock_le (p : String → Option Json) (msg : String) :
    ∀ (chunks : List Chunk) (s s' : DecSt),
    runChunks (handleDataCC p (fun _ => false)) (fun _ => false) msg s chunks = .ok s' →
    s.clock ≤ s'.clock := by
  intro chunks
  induction chunks with
  | nil =>
    intro s s' hrun
    simp only [runChunks, Except.ok.injEq] at hrun
    subst hrun
    exact le_refl _
  | cons c rest ih =>
    intro s s' hrun
    cases c with
    | error e =>
      simp only [runChunks, Bool.false_eq_true, if_false] at hrun
      simp at hrun
    | ok bytes =>
      simp only [runChunks, Bool.false_eq_true, if_false] at hrun
      by_cases hsz : MAX_BUFFER_SIZE < s.buffer.length + bytes.length
      · rw [if_pos hsz] at hrun
        simp at hrun
      · rw [if_neg hsz] at hrun
        exact le_trans (Nat.le_succ s.clock)
          (le_trans (drainLoop_clock_le p (fun _ => false) (s.buffer ++ bytes).length
            ⟨s.fullContent, s.buffer ++ bytes, s.inReasoning, s.clock + 1, s.events⟩)
            (ih _ _ hrun))

/-- Setting the flag at exactly the clock a never-cancelled run of
`chunks₁` ends with leaves the processing of `chunks₁` unchanged, and the
processing of whatever follows reduces to the cancelled loop entered at
the reached state. -/
theorem runChunks_cancelFrom_agree_append (p : String → Option Json) (n : Nat)
    (msg : String) :
    ∀ (l₁ l₂ : List Chunk) (s s₁ : DecSt),
    runChunks (handleDataCC p (fun _ => false)) (fun _ => false) msg s l₁ = .ok s₁ →
    s₁.clock ≤ n →
    runChunks (handleDataCC p (cancelFrom n)) (cancelFrom n) msg s (l₁ ++ l₂) =
      runChunks (handleDataCC p (cancelFrom n)) (cancelFrom n) msg s₁ l₂ := by
  intro l₁
  induction l₁ with
  | nil =>
    intro l₂ s s₁ hrun _
    simp only [runChunks, Except.ok.injEq] at hrun
    subst hrun
    rw [List.nil_append]
  | cons c rest ih =>
    intro l₂ s s₁ hrun hn
    cases c with
    | error e =>
      simp only [runChunks, Bool.false_eq_true, if_false] at hrun
      simp at hrun
    | ok bytes =>
      simp only [runChunks, Bool.false_eq_true, if_false] at hrun
      by_cases hsz : MAX_BUFFER_SIZE < s.buffer.length + bytes.length
      · rw [if_pos hsz] at hrun
        simp at hrun
      · rw [if_neg hsz] at hrun
        have hdclock : (drainLoop (handleDataCC p (fun _ => false))
            (⟨s.fullContent, s.buffer ++ bytes, s.inReasoning, s.clock + 1, s.events⟩ :
              DecSt).buffer.length
            ⟨s.fullContent, s.buffer ++ bytes, s.inReasoning, s.clock + 1, s.events⟩).1.clock
            ≤ n :=
          le_trans (runChunks_cF_clock_le p msg rest _ _ hrun) hn
        have hlt : s.clock < n :=
          lt_of_lt_of_le (Nat.lt_succ_self s.clock)
            (le_trans (drainLoop_clock_le p (fun _ => false)
                (⟨s.fullContent, s.buffer ++ bytes, s.inReasoning, s.clock + 1, s.events⟩ :
                  DecSt).buffer.length
                ⟨s.fullContent, s.buffer ++ bytes, s.inReasoning, s.clock + 1, s.events⟩)
              hdclock)
        have hcf : cancelFrom n s.clock = false := by
          simp only [cancelFrom, decide_eq_false_iff_not]
          omega
        simp only [List.cons_append, runChunks, hcf, Bool.false_eq_true, if_false]
        rw [if_neg hsz]
        rw [drainLoop_cancelFrom_agree p n _ _ hdclock]
        exact ih l₂ _ s₁ hrun hn

/-- `finalizeCC` commutes with overwriting the clock. -/
theorem finalizeCC_clock (s : DecSt) (k : Nat) :
    finalizeCC ⟨s.fullContent, s.buffer, s.inReasoning, k, s.events⟩ =
      ⟨(finalizeCC s).fullContent, (finalizeCC s).buffer, (finalizeCC s).inReasoning, k,
        (finalizeCC s).events⟩ := by
  cases h : s.inReasoning <;> simp [finalizeCC, emitAppend, h]

/-- **C3.** If the cancellation flag becomes set right after the reads
performed while decoding `chunks₁` (so every read during `chunks₁` saw it
unset and the first read afterwards sees it set), the decoder stops
before touching `chunks₂` — whatever it contains, including transport
errors and oversized chunks — and returns `Ok` with exactly the text and
events accumulated from `chunks₁` (plus the specified `</think>`
close-off if reasoning was open): cancellation is never an error and
never discards already-produced output. -/
theorem sse_cancellation_truncates (p : String → Option Json)
    (chunks₁ chunks₂ : List Chunk) (s' : DecSt)
    (hrun : runChunks (handleDataCC p (fun _ => false)) (fun _ => false)
      "Response too large, exceeded buffer limit" initSt chunks₁ = .ok s') :
    stream_sse_chat_completions p (cancelFrom s'.clock) (chunks₁ ++ chunks₂) =
      .ok ((finalizeCC s').fullContent, (finalizeCC s').events) := by
  unfold stream_sse_chat_completions
  rw [runChunks_cancelFrom_agree_append p s'.clock
    "Response too large, exceeded buffer limit" chunks₁ chunks₂ initSt s' hrun (le_refl _)]
  cases chunks₂ with
  | nil => simp only [runChunks]
  | cons c rest =>
    have hcf : cancelFrom s'.clock s'.clock = true := by simp [cancelFrom]
    simp only [runChunks, hcf, if_true]
    rw [show (⟨s'.fullContent, s'.buffer, s'.inReasoning, s'.clock + 1, s'.events⟩ : DecSt) =
      ⟨s'.fullContent, s'.buffer, s'.inReasoning, s'.clock + 1, s'.events⟩ from rfl]
    rw [finalizeCC_clock s' (s'.clock + 1)]

/-- **C3 witness.** A one-chunk stream producing `"hi"` is decoded; the
flag then flips (`cancelFrom 2`), and a following transport-error chunk
is never read: the call still returns `Ok "hi"` with only the one emitted
event. -/
theorem sse_cancellation_truncates_witness :
    stream_sse_chat_completions
      (fun s =>
        if s = "\x7b\"choices\":[\x7b\"delta\":\x7b\"content\":\"hi\"\x7d\x7d]\x7d" then
          some (Json.obj [("choices", .arr [.obj [("delta",
            .obj [("content", .str "hi")])]])])
        else none)
      (cancelFrom 2)
      ([.ok (strBytes "data: \x7b\"choices\":[\x7b\"delta\":\x7b\"content\":\"hi\"\x7d\x7d]\x7d\n")] ++
        [.error "connection reset"]) =
      .ok ("hi", ["hi"]) :=
  sse_cancellation_truncates
    (fun s =>
      if s = "\x7b\"choices\":[\x7b\"delta\":\x7b\"content\":\"hi\"\x7d\x7d]\x7d" then
        some (Json.obj [("choices", .arr [.obj [("delta",
          .obj [("content", .str "hi")])]])])
      else none)
    [.ok (strBytes "data: \x7b\"choices\":[\x7b\"delta\":\x7b\"content\":\"hi\"\x7d\x7d]\x7d\n")]
    [.error "connection reset"]
    ⟨"hi", [], false, 2, ["hi"]⟩
    rfl

/-! ### Chunk-boundary invariance

The decoders' output is independent of how the wire bytes are split into
received chunks: the retained buffer carries partial lines across chunk
boundaries, and only the cancellation-read clock (unobservable under a
never-set flag) differs between chunkings.  The development below proves
this for any line handler that never breaks, never touches the buffer,
and reads the clock only for the cancellation check. -/

/-- Overwrite the clock, keeping every other field. -/
def setClock (s : DecSt) (k : Nat) : DecSt :=
  ⟨s.fullContent, s.buffer, s.inReasoning, k, s.events⟩

/-- A hit in the left part of an append is a hit in the whole. -/
theorem findIdx?_append_left {α : Type} (q : α → Bool) (l₁ l₂ : List α) (pos : Nat)
    (h : l₁.findIdx? q = some pos) : (l₁ ++ l₂).findIdx? q = some pos := by
  rw [List.findIdx?_append, h]
  rfl

/-- A found index lies inside the list. -/
theorem findIdx?_some_lt {α : Type} (q : α → Bool) (l : List α) (pos : Nat)
    (h : l.findIdx? q = some pos) : pos < l.length := by
  rw [List.findIdx?_eq_some_iff_findIdx_eq] at h
  exact h.1

/-- The delta application leaves the buffer untouched. -/
theorem applyDeltaCC_buffer (delta : Json) (s : DecSt) :
    (applyDeltaCC delta s).buffer = s.buffer := by
  rcases hr : (delta.get "reasoning_content").bind Json.asStr with _ | r <;>
    rcases hc : (delta.get "content").bind Json.asStr with _ | c <;>
    simp only [applyDeltaCC, hr, hc] <;>
    split_ifs <;>
    simp [emitAppend]

/-- The delta application commutes with overwriting the clock. -/
theorem applyDeltaCC_setClock (delta : Json) (s : DecSt) (m : Nat) :
    applyDeltaCC delta (setClock s m) = setClock (applyDeltaCC delta s) m := by
  cases s with
  | mk f bu ir ck ev =>
    rcases hr : (delta.get "reasoning_content").bind Json.asStr with _ | r <;>
      rcases hc : (delta.get "content").bind Json.asStr with _ | c <;>
      simp only [applyDeltaCC, hr, hc, setClock, emitAppend] <;>
      split_ifs <;>
      simp_all [emitAppend]

/-- The Chat Completions line handler leaves the buffer untouched. -/
theorem handleDataCC_buffer (p : String → Option Json) (d : String) (s : DecSt) :
    (handleDataCC p (fun _ => false) d s).1.buffer = s.buffer := by
  by_cases hd : d = "[DONE]"
  · simp only [handleDataCC, hd, if_pos]
    split <;> simp [emitAppend]
  · rcases hpd : p d with _ | j
    · simp [handleDataCC, hd, hpd]
    · rcases hnav : ((j.get "choices").bind (fun c => c.getIdx 0)).bind
          (fun c => c.get "delta") with _ | delta
      · simp [handleDataCC, hd, hpd, hnav]
      · simp [handleDataCC, hd, hpd, hnav, applyDeltaCC_buffer]

/-- The Chat Completions line handler reads the clock only for the
cancellation check: under a never-set flag its handling of a reclocked
state is the reclocked handling. -/
theorem handleDataCC_setClock (p : String → Option Json) (d : String) (s : DecSt)
    (k : Nat) :
    ∃ kk, handleDataCC p (fun _ => false) d (setClock s k) =
      (setClock (handleDataCC p (fun _ => false) d s).1 kk, false) := by
  by_cases hd : d = "[DONE]"
  · refine ⟨k, ?_⟩
    simp only [handleDataCC, hd, if_pos]
    cases s with
    | mk f bu ir ck ev =>
      cases ir <;> simp [setClock, emitAppend]
  · rcases hpd : p d with _ | j
    · refine ⟨k, ?_⟩
      simp only [handleDataCC, hd, hpd]
      rfl
    · rcases hnav : ((j.get "choices").bind (fun c => c.getIdx 0)).bind
          (fun c => c.get "delta") with _ | delta
      · refine ⟨k, ?_⟩
        simp only [handleDataCC, hd, hpd, hnav]
        rfl
      · refine ⟨k + 1, ?_⟩
        simp only [handleDataCC, hd, hpd, hnav, Bool.false_eq_true, if_false]
        rw [show ({ setClock s k with clock := (setClock s k).clock + 1 } : DecSt) =
          setClock s (k + 1) from rfl]
        rw [applyDeltaCC_setClock]
        rw [show ({ s with clock := s.clock + 1 } : DecSt) =
          setClock s (s.clock + 1) from rfl]
        rw [applyDeltaCC_setClock]
        simp [setClock]

/-- The Anthropic line handler never sets the break flag. -/
theorem handleDataA_never_break (p : String → Option Json) (cancel : Nat → Bool)
    (d : String) (s : DecSt) :
    (handleDataA p cancel d s).2 = false := by
  rcases hpd : p d with _ | j
  · simp [handleDataA, hpd]
  · by_cases ht : (((j.get "type").bind Json.asStr).getD "") = "content_block_delta"
    · rcases hdelta : j.get "delta" with _ | delta
      · simp [handleDataA, hpd, ht, hdelta]
      · by_cases htx : ((delta.get "type").bind Json.asStr).getD "" = "text_delta"
        · rcases htv : (delta.get "text").bind Json.asStr with _ | t
          · simp [handleDataA, hpd, ht, hdelta, htx, htv]
          · simp only [handleDataA, hpd, hdelta, htv]
            rw [if_pos ht, if_pos htx]
            split_ifs <;> rfl
        · by_cases hth : ((delta.get "type").bind Json.asStr).getD "" = "thinking_delta"
          · rcases htv : (delta.get "thinking").bind Json.asStr with _ | t
            · simp [handleDataA, hpd, ht, hdelta, htx, hth, htv]
            · simp only [handleDataA, hpd, hdelta, htv]
              rw [if_pos ht, if_neg htx, if_pos hth]
              split_ifs <;> rfl
          · simp [handleDataA, hpd, ht, hdelta, htx, hth]
    · simp [handleDataA, hpd, ht]

/-- The Anthropic line handler leaves the buffer untouched. -/
theorem handleDataA_buffer (p : String → Option Json) (cancel : Nat → Bool)
    (d : String) (s : DecSt) :
    (handleDataA p cancel d s).1.buffer = s.buffer := by
  rcases hpd : p d with _ | j
  · simp [handleDataA, hpd]
  · by_cases ht : (((j.get "type").bind Json.asStr).getD "") = "content_block_delta"
    · rcases hdelta : j.get "delta" with _ | delta
      · simp [handleDataA, hpd, ht, hdelta]
      · by_cases htx : ((delta.get "type").bind Json.asStr).getD "" = "text_delta"
        · rcases htv : (delta.get "text").bind Json.asStr with _ | t
          · simp [handleDataA, hpd, ht, hdelta, htx, htv]
          · simp only [handleDataA, hpd, hdelta, htv]
            rw [if_pos ht, if_pos htx]
            split_ifs <;> simp [emitAppend]
        · by_cases hth : ((delta.get "type").bind Json.asStr).getD "" = "thinking_delta"
          · rcases htv : (delta.get "thinking").bind Json.asStr with _ | t
            · simp [handleDataA, hpd, ht, hdelta, htx, hth, htv]
            · simp only [handleDataA, hpd, hdelta, htv]
              rw [if_pos ht, if_neg htx, if_pos hth]
              split_ifs <;> simp [emitAppend]
          · simp [handleDataA, hpd, ht, hdelta, htx, hth]
    · simp [handleDataA, hpd, ht]

/-- The Anthropic line handler reads the clock only for the cancellation
check. -/
theorem handleDataA_setClock (p : String → Option Json) (d : String) (s : DecSt)
    (k : Nat) :
    ∃ kk, handleDataA p (fun _ => false) d (setClock s k) =
      (setClock (handleDataA p (fun _ => false) d s).1 kk, false) := by
  rcases hpd : p d with _ | j
  · exact ⟨k, by simp only [handleDataA, hpd]⟩
  · by_cases ht : (((j.get "type").bind Json.asStr).getD "") = "content_block_delta"
    · rcases hdelta : j.get "delta" with _ | delta
      · exact ⟨k, by simp only [handleDataA, hpd, ht, if_pos, hdelta]⟩
      · by_cases htx : ((delta.get "type").bind Json.asStr).getD "" = "text_delta"
        · rcases htv : (delta.get "text").bind Json.asStr with _ | t
          · exact ⟨k, by simp only [handleDataA, hpd, ht, if_pos, hdelta, htx, htv]⟩
          · by_cases hte : t = ""
            · refine ⟨k, ?_⟩
              simp [handleDataA, hpd, ht, hdelta, htx, htv, hte]
            · refine ⟨k + 1, ?_⟩
              simp only [handleDataA, hpd, ht, if_pos, hdelta, htx, if_pos, htv, hte,
                ne_eq, not_false_iff, if_true, Bool.false_eq_true, if_false]
              cases s with
              | mk f bu ir ck ev => simp [setClock, emitAppend]
        · by_cases hth : ((delta.get "type").bind Json.asStr).getD "" = "thinking_delta"
          · rcases htv : (delta.get "thinking").bind Json.asStr with _ | t
            · exact ⟨k, by
                simp only [handleDataA, hpd, ht, if_pos, hdelta, htx, if_neg, hth, htv]
                rfl⟩
            · by_cases hte : t = ""
              · refine ⟨k, ?_⟩
                simp [handleDataA, hpd, ht, hdelta, htx, hth, htv, hte]
              · refine ⟨k + 1, ?_⟩
                simp only [handleDataA, hpd, ht, if_pos, hdelta, htx, if_neg, hth,
                  if_pos, htv, hte, ne_eq, not_false_iff, if_true, Bool.false_eq_true,
                  if_false]
                cases s with
                | mk f bu ir ck ev => simp [setClock, emitAppend]
          · exact ⟨k, by simp [handleDataA, hpd, ht, hdelta, htx, hth]⟩
    · exact ⟨k, by simp [handleDataA, hpd, ht]⟩

/-- The trimmed decoded text of the first completed line of the buffer,
the line running up to byte position `pos`. -/
def lineOf (s : DecSt) (pos : Nat) : String :=
  trimEndMatchesChar '\r' (trimEndMatchesChar '\n' (bytesToString (s.buffer.take (pos + 1))))

/-- The state with the first `n` buffered bytes drained. -/
def bufRest (s : DecSt) (n : Nat) : DecSt :=
  ⟨s.fullContent, s.buffer.drop n, s.inReasoning, s.clock, s.events⟩

/-- Unfolding of the drain loop when the buffer holds no newline. -/
theorem drainLoop_no_line (hdl : String → DecSt → DecSt × Bool) (fuel : Nat) (s : DecSt)
    (hfind : s.buffer.findIdx? (fun b => b == 10) = none) :
    drainLoop hdl fuel s = (s, false) := by
  cases fuel with
  | zero => rfl
  | succ m => simp only [drainLoop, hfind]

/-- Unfolding of one iteration of the drain loop at the first newline. -/
theorem drainLoop_succ (hdl : String → DecSt → DecSt × Bool) (fuel : Nat) (s : DecSt)
    (pos : Nat) (hfind : s.buffer.findIdx? (fun b => b == 10) = some pos) :
    drainLoop hdl (fuel + 1) s =
      if lineOf s pos = "" then drainLoop hdl fuel (bufRest s (pos + 1))
      else
        match dataPayload (lineOf s pos) with
        | none => drainLoop hdl fuel (bufRest s (pos + 1))
        | some d =>
          if (hdl d (bufRest s (pos + 1))).2 then ((hdl d (bufRest s (pos + 1))).1, true)
          else drainLoop hdl fuel (hdl d (bufRest s (pos + 1))).1 := by
  simp only [drainLoop, hfind, lineOf, bufRest]

/-- With a handler that never breaks, the drain loop never breaks. -/
theorem drainLoop_nb (hdl : String → DecSt → DecSt × Bool)
    (H1 : ∀ d s, (hdl d s).2 = false) :
    ∀ (fuel : Nat) (s : DecSt), (drainLoop hdl fuel s).2 = false := by
  intro fuel
  induction fuel with
  | zero => intro s; rfl
  | succ m ih =>
    intro s
    rcases hfind : s.buffer.findIdx? (fun b => b == 10) with _ | pos
    · rw [drainLoop_no_line hdl (m + 1) s hfind]
    · rw [drainLoop_succ hdl m s pos hfind]
      by_cases hstr : lineOf s pos = ""
      · rw [if_pos hstr]; exact ih _
      · rw [if_neg hstr]
        rcases hdp : dataPayload (lineOf s pos) with _ | d
        · simp only [hdp]; exact ih _
        · simp only [hdp, H1, Bool.false_eq_true, if_false]; exact ih _

/-- With a buffer-preserving handler, draining never grows the buffer. -/
theorem drainLoop_buffer_le (hdl : String → DecSt → DecSt × Bool)
    (H3 : ∀ d s, (hdl d s).1.buffer = s.buffer) :
    ∀ (fuel : Nat) (s : DecSt),
    (drainLoop hdl fuel s).1.buffer.length ≤ s.buffer.length := by
  intro fuel
  induction fuel with
  | zero => intro s; exact le_refl _
  | succ m ih =>
    intro s
    rcases hfind : s.buffer.findIdx? (fun b => b == 10) with _ | pos
    · rw [drainLoop_no_line hdl (m + 1) s hfind]
    · have hdrop : (s.buffer.drop (pos + 1)).length ≤ s.buffer.length := by
        simp only [List.length_drop]; omega
      rw [drainLoop_succ hdl m s pos hfind]
      by_cases hstr : lineOf s pos = ""
      · rw [if_pos hstr]; exact le_trans (ih _) hdrop
      · rw [if_neg hstr]
        rcases hdp : dataPayload (lineOf s pos) with _ | d
        · simp only [hdp]; exact le_trans (ih _) hdrop
        · simp only [hdp]
          split
          · rw [H3]; exact hdrop
          · refine le_trans (le_trans (ih _) ?_) hdrop
            rw [H3]
            exact le_refl _

/-- With enough fuel (the buffer length always suffices), the drain loop
leaves a residual buffer holding no newline. -/
theorem drainLoop_residual (hdl : String → DecSt → DecSt × Bool)
    (H1 : ∀ d s, (hdl d s).2 = false)
    (H3 : ∀ d s, (hdl d s).1.buffer = s.buffer) :
    ∀ (fuel : Nat) (s : DecSt), s.buffer.length ≤ fuel →
    (drainLoop hdl fuel s).1.buffer.findIdx? (fun b => b == 10) = none := by
  intro fuel
  induction fuel with
  | zero =>
    intro s hlen
    have hb : s.buffer = [] := List.length_eq_zero.mp (Nat.le_zero.mp hlen)
    rw [drainLoop_no_line hdl 0 s (by rw [hb]; simp)]
    rw [hb]
    simp
  | succ m ih =>
    intro s hlen
    rcases hfind : s.buffer.findIdx? (fun b => b == 10) with _ | pos
    · rw [drainLoop_no_line hdl (m + 1) s hfind]
      exact hfind
    · have hpos := findIdx?_some_lt _ _ _ hfind
      have hlen' : (s.buffer.drop (pos + 1)).length ≤ m := by
        simp only [List.length_drop]; omega
      rw [drainLoop_succ hdl m s pos hfind]
      by_cases hstr : lineOf s pos = ""
      · rw [if_pos hstr]; exact ih _ hlen'
      · rw [if_neg hstr]
        rcases hdp : dataPayload (lineOf s pos) with _ | d
        · simp only [hdp]; exact ih _ hlen'
        · simp only [hdp, H1, Bool.false_eq_true, if_false]
          refine ih _ ?_
          rw [H3]
          exact hlen'

/-- With enough fuel on both sides, the exact fuel is irrelevant. -/
theorem drainLoop_fuel_irrel (hdl : String → DecSt → DecSt × Bool)
    (H1 : ∀ d s, (hdl d s).2 = false)
    (H3 : ∀ d s, (hdl d s).1.buffer = s.buffer) :
    ∀ (fuel fuel' : Nat) (s : DecSt), s.buffer.length ≤ fuel → s.buffer.length ≤ fuel' →
    drainLoop hdl fuel s = drainLoop hdl fuel' s := by
  intro fuel
  induction fuel with
  | zero =>
    intro fuel' s hlen _
    have hb : s.buffer = [] := List.length_eq_zero.mp (Nat.le_zero.mp hlen)
    rw [drainLoop_no_line hdl 0 s (by rw [hb]; simp),
      drainLoop_no_line hdl fuel' s (by rw [hb]; simp)]
  | succ m ih =>
    intro fuel' s hlen hlen'
    rcases hfind : s.buffer.findIdx? (fun b => b == 10) with _ | pos
    · rw [drainLoop_no_line hdl (m + 1) s hfind, drainLoop_no_line hdl fuel' s hfind]
    · have hpos := findIdx?_some_lt _ _ _ hfind
      cases fuel' with
      | zero =>
        have : s.buffer = [] := List.length_eq_zero.mp (Nat.le_zero.mp hlen')
        rw [this] at hfind
        simp at hfind
      | succ m' =>
        have hrest : (s.buffer.drop (pos + 1)).length ≤ m ∧
            (s.buffer.drop (pos + 1)).length ≤ m' := by
          constructor <;> (simp only [List.length_drop]; omega)
        rw [drainLoop_succ hdl m s pos hfind, drainLoop_succ hdl m' s pos hfind]
        by_cases hstr : lineOf s pos = ""
        · rw [if_pos hstr, if_pos hstr]
          exact ih m' _ hrest.1 hrest.2
        · rw [if_neg hstr, if_neg hstr]
          rcases hdp : dataPayload (lineOf s pos) with _ | d
          · simp only [hdp]
            exact ih m' _ hrest.1 hrest.2
          · simp only [hdp, H1, Bool.false_eq_true, if_false]
            refine ih m' _ ?_ ?_ <;> rw [H3] <;> [exact hrest.1; exact hrest.2]

/-- With a clock-oblivious handler, reclocking the input state only
reclocks the drained state. -/
theorem drainLoop_setClock (hdl : String → DecSt → DecSt × Bool)
    (H1 : ∀ d s, (hdl d s).2 = false)
    (H2 : ∀ d s k, ∃ kk, hdl d (setClock s k) = (setClock (hdl d s).1 kk, false)) :
    ∀ (fuel : Nat) (s : DecSt) (k : Nat),
    ∃ kk, drainLoop hdl fuel (setClock s k) = (setClock (drainLoop hdl fuel s).1 kk, false) := by
  intro fuel
  induction fuel with
  | zero => intro s k; exact ⟨k, rfl⟩
  | succ m ih =>
    intro s k
    rcases hfind : s.buffer.findIdx? (fun b => b == 10) with _ | pos
    · refine ⟨k, ?_⟩
      rw [drainLoop_no_line hdl (m + 1) s hfind,
        drainLoop_no_line hdl (m + 1) (setClock s k) hfind]
    · rw [drainLoop_succ hdl m s pos hfind, drainLoop_succ hdl m (setClock s k) pos hfind]
      have hline : lineOf (setClock s k) pos = lineOf s pos := rfl
      have hrest : bufRest (setClock s k) (pos + 1) = setClock (bufRest s (pos + 1)) k := rfl
      rw [hline, hrest]
      by_cases hstr : lineOf s pos = ""
      · rw [if_pos hstr, if_pos hstr]
        exact ih _ k
      · rw [if_neg hstr, if_neg hstr]
        rcases hdp : dataPayload (lineOf s pos) with _ | d
        · simp only [hdp]
          exact ih _ k
        · simp only [hdp]
          obtain ⟨kk₁, e₁⟩ := H2 d (bufRest s (pos + 1)) k
          rw [e₁]
          simp only [H1, Bool.false_eq_true, if_false]
          exact ih _ kk₁

/-- The state with extra bytes appended to the buffer. -/
def extendBuf (s : DecSt) (b : List Nat) : DecSt :=
  ⟨s.fullContent, s.buffer ++ b, s.inReasoning, s.clock, s.events⟩

/-- The delta application commutes with appending to the buffer. -/
theorem applyDeltaCC_extendBuf (delta : Json) (s : DecSt) (b : List Nat) :
    applyDeltaCC delta (extendBuf s b) = extendBuf (applyDeltaCC delta s) b := by
  cases s with
  | mk f bu ir ck ev =>
    rcases hr : (delta.get "reasoning_content").bind Json.asStr with _ | r <;>
      rcases hc : (delta.get "content").bind Json.asStr with _ | c <;>
      simp only [applyDeltaCC, hr, hc, extendBuf, emitAppend] <;>
      split_ifs <;>
      simp_all [emitAppend]

/-- The Chat Completions line handler never reads the buffer: handling a
state with extra buffered bytes handles the original and carries the
bytes through. -/
theorem handleDataCC_extendBuf (p : String → Option Json) (d : String) (s : DecSt)
    (b : List Nat) :
    handleDataCC p (fun _ => false) d (extendBuf s b) =
      (extendBuf (handleDataCC p (fun _ => false) d s).1 b, false) := by
  by_cases hd : d = "[DONE]"
  · simp only [handleDataCC, hd, if_pos]
    cases s with
    | mk f bu ir ck ev =>
      cases ir <;> simp [extendBuf, emitAppend]
  · rcases hpd : p d with _ | j
    · simp only [handleDataCC, hd, hpd]
      rfl
    · rcases hnav : ((j.get "choices").bind (fun c => c.getIdx 0)).bind
          (fun c => c.get "delta") with _ | delta
      · simp only [handleDataCC, hd, hpd, hnav]
        rfl
      · simp only [handleDataCC, hd, hpd, hnav, Bool.false_eq_true, if_false]
        rw [show ({ extendBuf s b with clock := (extendBuf s b).clock + 1 } : DecSt) =
          extendBuf { s with clock := s.clock + 1 } b from rfl]
        rw [applyDeltaCC_extendBuf]

/-- The Anthropic line handler never reads the buffer. -/
theorem handleDataA_extendBuf (p : String → Option Json) (d : String) (s : DecSt)
    (b : List Nat) :
    handleDataA p (fun _ => false) d (extendBuf s b) =
      (extendBuf (handleDataA p (fun _ => false) d s).1 b, false) := by
  rcases hpd : p d with _ | j
  · simp only [handleDataA, hpd]
  · by_cases ht : (((j.get "type").bind Json.asStr).getD "") = "content_block_delta"
    · rcases hdelta : j.get "delta" with _ | delta
      · simp only [handleDataA, hpd, ht, if_pos, hdelta]
      · by_cases htx : ((delta.get "type").bind Json.asStr).getD "" = "text_delta"
        · rcases htv : (delta.get "text").bind Json.asStr with _ | t
          · simp only [handleDataA, hpd, ht, if_pos, hdelta, htx, htv]
          · by_cases hte : t = ""
            · simp [handleDataA, hpd, ht, hdelta, htx, htv, hte]
            · simp only [handleDataA, hpd, hdelta, htv]
              rw [if_pos ht, if_pos htx, if_pos ht, if_pos htx]
              rw [if_pos (show t ≠ "" from hte), if_pos (show t ≠ "" from hte)]
              simp only [Bool.false_eq_true, if_false]
              cases s with
              | mk f bu ir ck ev => simp [extendBuf, emitAppend]
        · by_cases hth : ((delta.get "type").bind Json.asStr).getD "" = "thinking_delta"
          · rcases htv : (delta.get "thinking").bind Json.asStr with _ | t
            · simp only [handleDataA, hpd, hdelta, htv]
              rw [if_pos ht, if_neg htx, if_pos hth, if_pos ht, if_neg htx, if_pos hth]
            · by_cases hte : t = ""
              · simp [handleDataA, hpd, ht, hdelta, htx, hth, htv, hte]
              · simp only [handleDataA, hpd, hdelta, htv]
                rw [if_pos ht, if_neg htx, if_pos hth, if_pos ht, if_neg htx, if_pos hth]
                rw [if_pos (show t ≠ "" from hte), if_pos (show t ≠ "" from hte)]
                simp only [Bool.false_eq_true, if_false]
                cases s with
                | mk f bu ir ck ev => simp [extendBuf, emitAppend]
          · simp only [handleDataA, hpd, hdelta]
            rw [if_pos ht, if_neg htx, if_neg hth, if_pos ht, if_neg htx, if_neg hth]
    · simp only [handleDataA, hpd]
      rw [if_neg ht, if_neg ht]

/-- Appending chunk bytes to the retained buffer and draining all
complete lines: the common state transition of the three decoders. -/
def feed (hdl : String → DecSt → DecSt × Bool) (s : DecSt) (bytes : List Nat) : DecSt :=
  (drainLoop hdl (extendBuf s bytes).buffer.length (extendBuf s bytes)).1

/-- Reclocking the state before a feed only reclocks its result. -/
theorem feed_setClock (hdl : String → DecSt → DecSt × Bool)
    (H1 : ∀ d s, (hdl d s).2 = false)
    (H2 : ∀ d s k, ∃ kk, hdl d (setClock s k) = (setClock (hdl d s).1 kk, false))
    (t : DecSt) (k : Nat) (b : List Nat) :
    ∃ kk, feed hdl (setClock t k) b = setClock (feed hdl t b) kk := by
  obtain ⟨kk, e⟩ := drainLoop_setClock hdl H1 H2 (extendBuf t b).buffer.length
    (extendBuf t b) k
  refine ⟨kk, ?_⟩
  show (drainLoop hdl (extendBuf (setClock t k) b).buffer.length
    (extendBuf (setClock t k) b)).1 = _
  rw [show extendBuf (setClock t k) b = setClock (extendBuf t b) k from rfl]
  rw [show (setClock (extendBuf t b) k).buffer.length = (extendBuf t b).buffer.length
    from rfl]
  rw [e]
  rfl

/-- Draining before a feed is absorbed by the feed: the buffer carries
partial lines forward, so completing the pending lines first and then
feeding more bytes reaches the same state as feeding directly. -/
theorem drainLoop_extend (hdl : String → DecSt → DecSt × Bool)
    (H1 : ∀ d s, (hdl d s).2 = false)
    (H3 : ∀ d s, (hdl d s).1.buffer = s.buffer)
    (H4 : ∀ d s b, hdl d (extendBuf s b) = (extendBuf (hdl d s).1 b, false)) :
    ∀ (fuel : Nat) (u : DecSt) (b2 : List Nat),
    feed hdl (drainLoop hdl fuel u).1 b2 = feed hdl u b2 := by
  intro fuel
  induction fuel with
  | zero => intro u b2; rfl
  | succ m ih =>
    intro u b2
    rcases hfind : u.buffer.findIdx? (fun b => b == 10) with _ | pos
    · rw [drainLoop_no_line hdl (m + 1) u hfind]
    · have hpos := findIdx?_some_lt _ _ _ hfind
      have hfindE : (extendBuf u b2).buffer.findIdx? (fun b => b == 10) = some pos :=
        findIdx?_append_left _ _ _ _ hfind
      have hlineE : lineOf (extendBuf u b2) pos = lineOf u pos := by
        simp only [lineOf, extendBuf]
        rw [List.take_append_of_le_length (by omega)]
      have hrestE : bufRest (extendBuf u b2) (pos + 1) =
          extendBuf (bufRest u (pos + 1)) b2 := by
        simp only [bufRest, extendBuf]
        rw [List.drop_append_of_le_length (by omega)]
      have hlenE : (extendBuf u b2).buffer.length = u.buffer.length + b2.length := by
        simp [extendBuf]
      obtain ⟨M, hM⟩ : ∃ M, (extendBuf u b2).buffer.length = M + 1 :=
        ⟨(extendBuf u b2).buffer.length - 1, by omega⟩
      have hrfl : feed hdl u b2 = (drainLoop hdl (M + 1) (extendBuf u b2)).1 := by
        rw [feed, hM]
      have hfuel1 : (extendBuf (bufRest u (pos + 1)) b2).buffer.length ≤ M := by
        simp only [extendBuf, bufRest, List.length_append, List.length_drop]
        omega
      rw [drainLoop_succ hdl m u pos hfind]
      by_cases hstr : lineOf u pos = ""
      · rw [if_pos hstr]
        rw [ih (bufRest u (pos + 1)) b2]
        rw [hrfl, drainLoop_succ hdl M (extendBuf u b2) pos hfindE, hlineE,
          if_pos hstr, hrestE]
        rw [← drainLoop_fuel_irrel hdl H1 H3
          (extendBuf (bufRest u (pos + 1)) b2).buffer.length M
          (extendBuf (bufRest u (pos + 1)) b2) (le_refl _) hfuel1]
        rfl
      · rw [if_neg hstr]
        rcases hdp : dataPayload (lineOf u pos) with _ | d
        · simp only [hdp]
          rw [ih (bufRest u (pos + 1)) b2]
          rw [hrfl, drainLoop_succ hdl M (extendBuf u b2) pos hfindE, hlineE,
            if_neg hstr]
          simp only [hdp, hrestE]
          rw [← drainLoop_fuel_irrel hdl H1 H3
            (extendBuf (bufRest u (pos + 1)) b2).buffer.length M
            (extendBuf (bufRest u (pos + 1)) b2) (le_refl _) hfuel1]
          rfl
        · simp only [hdp, H1, Bool.false_eq_true, if_false]
          rw [ih (hdl d (bufRest u (pos + 1))).1 b2]
          rw [hrfl, drainLoop_succ hdl M (extendBuf u b2) pos hfindE, hlineE,
            if_neg hstr]
          simp only [hdp, hrestE]
          rw [H4 d (bufRest u (pos + 1)) b2]
          simp only [Bool.false_eq_true, if_false]
          rw [← drainLoop_fuel_irrel hdl H1 H3
            (extendBuf (hdl d (bufRest u (pos + 1))).1 b2).buffer.length M
            (extendBuf (hdl d (bufRest u (pos + 1))).1 b2)
            (le_refl _)
            (by
              simp only [extendBuf, List.length_append, H3, bufRest, List.length_drop]
              omega)]
          rfl

/-- Feeding the wire bytes in two instalments reaches the same state as
feeding them at once. -/
theorem feed_append (hdl : String → DecSt → DecSt × Bool)
    (H1 : ∀ d s, (hdl d s).2 = false)
    (H3 : ∀ d s, (hdl d s).1.buffer = s.buffer)
    (H4 : ∀ d s b, hdl d (extendBuf s b) = (extendBuf (hdl d s).1 b, false))
    (s : DecSt) (b1 b2 : List Nat) :
    feed hdl (feed hdl s b1) b2 = feed hdl s (b1 ++ b2) := by
  rw [show feed hdl s b1 =
    (drainLoop hdl (extendBuf s b1).buffer.length (extendBuf s b1)).1 from rfl]
  rw [drainLoop_extend hdl H1 H3 H4 (extendBuf s b1).buffer.length (extendBuf s b1) b2]
  show (drainLoop hdl (extendBuf (extendBuf s b1) b2).buffer.length
    (extendBuf (extendBuf s b1) b2)).1 = _
  rw [show extendBuf (extendBuf s b1) b2 = extendBuf s (b1 ++ b2) from by
    simp [extendBuf, List.append_assoc]]
  rfl

/-- The chunk loop under a never-set flag computes, up to the
cancellation-read clock, the fold of `feed` over the chunks — equally,
the feed of their concatenation: the decoded output is independent of
the chunk boundaries. -/
theorem runChunks_join (hdl : String → DecSt → DecSt × Bool)
    (H1 : ∀ d s, (hdl d s).2 = false)
    (H2 : ∀ d s k, ∃ kk, hdl d (setClock s k) = (setClock (hdl d s).1 kk, false))
    (H3 : ∀ d s, (hdl d s).1.buffer = s.buffer)
    (H4 : ∀ d s b, hdl d (extendBuf s b) = (extendBuf (hdl d s).1 b, false))
    (msg : String) :
    ∀ (chunks : List (List Nat)) (s : DecSt),
    s.buffer.findIdx? (fun b => b == 10) = none →
    s.buffer.length + chunks.flatten.length ≤ MAX_BUFFER_SIZE →
    ∃ kk, runChunks hdl (fun _ => false) msg s (chunks.map Except.ok) =
      .ok (setClock (feed hdl s chunks.flatten) kk) := by
  intro chunks
  induction chunks with
  | nil =>
    intro s hnl _
    refine ⟨s.clock, ?_⟩
    simp only [List.map_nil, runChunks]
    rw [show ([] : List (List Nat)).flatten = [] from rfl]
    have hfr : feed hdl s [] = extendBuf s [] := by
      rw [feed, drainLoop_no_line hdl _ _ (by
        show (s.buffer ++ []).findIdx? (fun b => b == 10) = none
        rw [List.append_nil]
        exact hnl)]
    rw [hfr]
    simp [setClock, extendBuf]
  | cons c cs ih =>
    intro s hnl hsz
    rw [show (c :: cs).flatten = c ++ cs.flatten from rfl, List.length_append] at hsz
    have hszc : ¬ MAX_BUFFER_SIZE < s.buffer.length + c.length := by omega
    simp only [List.map_cons, runChunks, Bool.false_eq_true, if_false]
    rw [if_neg hszc]
    obtain ⟨kk₁, e₁⟩ := drainLoop_setClock hdl H1 H2
      (extendBuf s c).buffer.length (extendBuf s c) (s.clock + 1)
    show ∃ kk, runChunks hdl (fun _ => false) msg
        (drainLoop hdl (extendBuf s c).buffer.length
          (setClock (extendBuf s c) (s.clock + 1))).1 (List.map Except.ok cs) =
      Except.ok (setClock (feed hdl s (c ++ cs.flatten)) kk)
    rw [e₁]
    rw [show ((setClock (drainLoop hdl (extendBuf s c).buffer.length
        (extendBuf s c)).1 kk₁, false) : DecSt × Bool).1 =
      setClock (feed hdl s c) kk₁ from rfl]
    have hres : (feed hdl s c).buffer.findIdx? (fun b => b == 10) = none :=
      drainLoop_residual hdl H1 H3 (extendBuf s c).buffer.length (extendBuf s c)
        (le_refl _)
    have hlen : (feed hdl s c).buffer.length + cs.flatten.length ≤ MAX_BUFFER_SIZE := by
      have hb := drainLoop_buffer_le hdl H3 (extendBuf s c).buffer.length (extendBuf s c)
      have hb2 : (extendBuf s c).buffer.length = s.buffer.length + c.length := by
        simp [extendBuf]
      have hb3 : (feed hdl s c).buffer.length ≤ s.buffer.length + c.length := by
        rw [← hb2]; exact hb
      omega
    obtain ⟨kk₂, e₂⟩ := ih (setClock (feed hdl s c) kk₁) hres hlen
    refine ⟨kk₂, ?_⟩
    rw [e₂]
    obtain ⟨kk₃, e₃⟩ := feed_setClock hdl H1 H2 (feed hdl s c) kk₁ cs.flatten
    rw [e₃]
    rw [show setClock (setClock (feed hdl (feed hdl s c) cs.flatten) kk₃) kk₂ =
      setClock (feed hdl (feed hdl s c) cs.flatten) kk₂ from rfl]
    rw [feed_append hdl H1 H3 H4 s c cs.flatten]

/-- **C1.** For every parse function that decodes the three delta lines
of the synthetic stream to their JSON values (reasoning `"a"`, reasoning
`"b"`, content `"c"`, then `[DONE]`), and for **every** split of the wire
bytes into received chunks, the Chat Completions decoder accumulates
exactly `"<think>ab</think>c"`, and the emitted events show the open tag
on the first reasoning token and the close tag on the transition to
content — reasoning and content as mutually exclusive phases. -/
theorem cc_decode_think_boundary (p : String → Option Json)
    (h1 : p ccPayloadA = some ccJsonA)
    (h2 : p ccPayloadB = some ccJsonB)
    (h3 : p ccPayloadC = some ccJsonC)
    (chunks : List (List Nat)) (hjoin : chunks.flatten = strBytes ccStream) :
    stream_sse_chat_completions p (fun _ => false) (chunks.map Except.ok) =
      .ok ("<think>ab</think>c", ["<think>", "a", "b", "</think>", "c"]) := by
  have w1 : handleDataCC p (fun _ => false) ccPayloadA
      ⟨"", strBytes ("data: " ++ ccPayloadB ++ "\n" ++ "data: " ++ ccPayloadC ++ "\n" ++
        "data: [DONE]\n"), false, 0, []⟩ =
      (⟨"<think>a", strBytes ("data: " ++ ccPayloadB ++ "\n" ++ "data: " ++ ccPayloadC ++
        "\n" ++ "data: [DONE]\n"), true, 1, ["<think>", "a"]⟩, false) := by
    simp only [handleDataCC, h1]
    rfl
  have w2 : handleDataCC p (fun _ => false) ccPayloadB
      ⟨"<think>a", strBytes ("data: " ++ ccPayloadC ++ "\n" ++ "data: [DONE]\n"),
        true, 1, ["<think>", "a"]⟩ =
      (⟨"<think>ab", strBytes ("data: " ++ ccPayloadC ++ "\n" ++ "data: [DONE]\n"),
        true, 2, ["<think>", "a", "b"]⟩, false) := by
    simp only [handleDataCC, h2]
    rfl
  have w3 : handleDataCC p (fun _ => false) ccPayloadC
      ⟨"<think>ab", strBytes "data: [DONE]\n", true, 2, ["<think>", "a", "b"]⟩ =
      (⟨"<think>ab</think>c", strBytes "data: [DONE]\n", false, 3,
        ["<think>", "a", "b", "</think>", "c"]⟩, false) := by
    simp only [handleDataCC, h3]
    rfl
  have d1 : drainLoop (handleDataCC p (fun _ => false)) 171
      ⟨"", strBytes ccStream, false, 0, []⟩ =
      drainLoop (handleDataCC p (fun _ => false)) 170
        (handleDataCC p (fun _ => false) ccPayloadA
          ⟨"", strBytes ("data: " ++ ccPayloadB ++ "\n" ++ "data: " ++ ccPayloadC ++ "\n" ++
            "data: [DONE]\n"), false, 0, []⟩).1 := by
    rw [show drainLoop (handleDataCC p (fun _ => false)) 171
        ⟨"", strBytes ccStream, false, 0, []⟩ =
      (if (handleDataCC p (fun _ => false) ccPayloadA
          ⟨"", strBytes ("data: " ++ ccPayloadB ++ "\n" ++ "data: " ++ ccPayloadC ++ "\n" ++
            "data: [DONE]\n"), false, 0, []⟩).2 then
        ((handleDataCC p (fun _ => false) ccPayloadA
          ⟨"", strBytes ("data: " ++ ccPayloadB ++ "\n" ++ "data: " ++ ccPayloadC ++ "\n" ++
            "data: [DONE]\n"), false, 0, []⟩).1, true)
      else drainLoop (handleDataCC p (fun _ => false)) 170
        (handleDataCC p (fun _ => false) ccPayloadA
          ⟨"", strBytes ("data: " ++ ccPayloadB ++ "\n" ++ "data: " ++ ccPayloadC ++ "\n" ++
            "data: [DONE]\n"), false, 0, []⟩).1) from rfl, w1]
    rfl
  have d2 : drainLoop (handleDataCC p (fun _ => false)) 170
      ⟨"<think>a", strBytes ("data: " ++ ccPayloadB ++ "\n" ++ "data: " ++ ccPayloadC ++
        "\n" ++ "data: [DONE]\n"), true, 1, ["<think>", "a"]⟩ =
      drainLoop (handleDataCC p (fun _ => false)) 169
        (handleDataCC p (fun _ => false) ccPayloadB
          ⟨"<think>a", strBytes ("data: " ++ ccPayloadC ++ "\n" ++ "data: [DONE]\n"),
            true, 1, ["<think>", "a"]⟩).1 := by
    rw [show drainLoop (handleDataCC p (fun _ => false)) 170
        ⟨"<think>a", strBytes ("data: " ++ ccPayloadB ++ "\n" ++ "data: " ++ ccPayloadC ++
          "\n" ++ "data: [DONE]\n"), true, 1, ["<think>", "a"]⟩ =
      (if (handleDataCC p (fun _ => false) ccPayloadB
          ⟨"<think>a", strBytes ("data: " ++ ccPayloadC ++ "\n" ++ "data: [DONE]\n"),
            true, 1, ["<think>", "a"]⟩).2 then
        ((handleDataCC p (fun _ => false) ccPayloadB
          ⟨"<think>a", strBytes ("data: " ++ ccPayloadC ++ "\n" ++ "data: [DONE]\n"),
            true, 1, ["<think>", "a"]⟩).1, true)
      else drainLoop (handleDataCC p (fun _ => false)) 169
        (handleDataCC p (fun _ => false) ccPayloadB
          ⟨"<think>a", strBytes ("data: " ++ ccPayloadC ++ "\n" ++ "data: [DONE]\n"),
            true, 1, ["<think>", "a"]⟩).1) from rfl, w2]
    rfl
  have d3 : drainLoop (handleDataCC p (fun _ => false)) 169
      ⟨"<think>ab", strBytes ("data: " ++ ccPayloadC ++ "\n" ++ "data: [DONE]\n"),
        true, 2, ["<think>", "a", "b"]⟩ =
      drainLoop (handleDataCC p (fun _ => false)) 168
        (handleDataCC p (fun _ => false) ccPayloadC
          ⟨"<think>ab", strBytes "data: [DONE]\n", true, 2, ["<think>", "a", "b"]⟩).1 := by
    rw [show drainLoop (handleDataCC p (fun _ => false)) 169
        ⟨"<think>ab", strBytes ("data: " ++ ccPayloadC ++ "\n" ++ "data: [DONE]\n"),
          true, 2, ["<think>", "a", "b"]⟩ =
      (if (handleDataCC p (fun _ => false) ccPayloadC
          ⟨"<think>ab", strBytes "data: [DONE]\n", true, 2, ["<think>", "a", "b"]⟩).2 then
        ((handleDataCC p (fun _ => false) ccPayloadC
          ⟨"<think>ab", strBytes "data: [DONE]\n", true, 2, ["<think>", "a", "b"]⟩).1, true)
      else drainLoop (handleDataCC p (fun _ => false)) 168
        (handleDataCC p (fun _ => false) ccPayloadC
          ⟨"<think>ab", strBytes "data: [DONE]\n", true, 2, ["<think>", "a", "b"]⟩).1)
      from rfl, w3]
    rfl
  have hfeed : feed (handleDataCC p (fun _ => false)) initSt (strBytes ccStream) =
      ⟨"<think>ab</think>c", [], false, 3, ["<think>", "a", "b", "</think>", "c"]⟩ := by
    show (drainLoop (handleDataCC p (fun _ => false)) 171
      ⟨"", strBytes ccStream, false, 0, []⟩).1 = _
    rw [d1, w1, d2, w2, d3, w3]
    rfl
  obtain ⟨kk, hk⟩ := runChunks_join (handleDataCC p (fun _ => false))
    (fun d s => handleDataCC_never_break p d s)
    (fun d s k => handleDataCC_setClock p d s k)
    (fun d s => handleDataCC_buffer p d s)
    (fun d s b => handleDataCC_extendBuf p d s b)
    "Response too large, exceeded buffer limit" chunks initSt
    (by simp [initSt])
    (by rw [hjoin]; decide)
  unfold stream_sse_chat_completions
  rw [hk, hjoin, hfeed]
  simp [setClock, finalizeCC]

/-- **C1 witness.** The theorem applied to the finite parse table that
decodes the three payload lines, with the wire bytes split into two
chunks whose boundary falls in the middle of the second line. -/
theorem cc_decode_think_boundary_witness :
    stream_sse_chat_completions
      (fun s =>
        if s = ccPayloadA then some ccJsonA
        else if s = ccPayloadB then some ccJsonB
        else if s = ccPayloadC then some ccJsonC
        else none)
      (fun _ => false)
      ([(strBytes ccStream).take 80, (strBytes ccStream).drop 80].map Except.ok) =
      .ok ("<think>ab</think>c", ["<think>", "a", "b", "</think>", "c"]) :=
  cc_decode_think_boundary
    (fun s =>
      if s = ccPayloadA then some ccJsonA
      else if s = ccPayloadB then some ccJsonB
      else if s = ccPayloadC then some ccJsonC
      else none)
    rfl rfl rfl
    [(strBytes ccStream).take 80, (strBytes ccStream).drop 80]
    (by
      rw [show ([(strBytes ccStream).take 80, (strBytes ccStream).drop 80] :
        List (List Nat)).flatten =
        (strBytes ccStream).take 80 ++ ((strBytes ccStream).drop 80 ++ []) from rfl]
      rw [List.append_nil, List.take_append_drop])

/-- **C6.** For every parse function that decodes the two content-block
delta lines of the synthetic Anthropic stream (one `thinking_delta`
`"x"`, one `text_delta` `"y"`), and for **every** split of the wire bytes
into received chunks, the Anthropic Messages decoder accumulates
`"<think>x</think>y"` — the thinking chunk independently wrapped, the
text chunk emitted as content. -/
theorem anthropic_decode_think_wrap (p : String → Option Json)
    (h1 : p aPayloadX = some aJsonX)
    (h2 : p aPayloadY = some aJsonY)
    (chunks : List (List Nat)) (hjoin : chunks.flatten = strBytes aStream) :
    stream_anthropic_with_search p (fun _ => false) (chunks.map Except.ok) =
      .ok ("<think>x</think>y", ["<think>x</think>", "y"]) := by
  have w1 : handleDataA p (fun _ => false) aPayloadX
      ⟨"", strBytes ("data: " ++ aPayloadY ++ "\n"), false, 0, []⟩ =
      (⟨"<think>x</think>", strBytes ("data: " ++ aPayloadY ++ "\n"), false, 1,
        ["<think>x</think>"]⟩, false) := by
    simp only [handleDataA, h1]
    rfl
  have w2 : handleDataA p (fun _ => false) aPayloadY
      ⟨"<think>x</think>", [], false, 1, ["<think>x</think>"]⟩ =
      (⟨"<think>x</think>y", [], false, 2, ["<think>x</think>", "y"]⟩, false) := by
    simp only [handleDataA, h2]
    rfl
  have d1 : drainLoop (handleDataA p (fun _ => false)) 164
      ⟨"", strBytes aStream, false, 0, []⟩ =
      drainLoop (handleDataA p (fun _ => false)) 163
        (handleDataA p (fun _ => false) aPayloadX
          ⟨"", strBytes ("data: " ++ aPayloadY ++ "\n"), false, 0, []⟩).1 := by
    rw [show drainLoop (handleDataA p (fun _ => false)) 164
        ⟨"", strBytes aStream, false, 0, []⟩ =
      (if (handleDataA p (fun _ => false) aPayloadX
          ⟨"", strBytes ("data: " ++ aPayloadY ++ "\n"), false, 0, []⟩).2 then
        ((handleDataA p (fun _ => false) aPayloadX
          ⟨"", strBytes ("data: " ++ aPayloadY ++ "\n"), false, 0, []⟩).1, true)
      else drainLoop (handleDataA p (fun _ => false)) 163
        (handleDataA p (fun _ => false) aPayloadX
          ⟨"", strBytes ("data: " ++ aPayloadY ++ "\n"), false, 0, []⟩).1) from rfl, w1]
    rfl
  have d2 : drainLoop (handleDataA p (fun _ => false)) 163
      ⟨"<think>x</think>", strBytes ("data: " ++ aPayloadY ++ "\n"), false, 1,
        ["<think>x</think>"]⟩ =
      drainLoop (handleDataA p (fun _ => false)) 162
        (handleDataA p (fun _ => false) aPayloadY
          ⟨"<think>x</think>", [], false, 1, ["<think>x</think>"]⟩).1 := by
    rw [show drainLoop (handleDataA p (fun _ => false)) 163
        ⟨"<think>x</think>", strBytes ("data: " ++ aPayloadY ++ "\n"), false, 1,
          ["<think>x</think>"]⟩ =
      (if (handleDataA p (fun _ => false) aPayloadY
          ⟨"<think>x</think>", [], false, 1, ["<think>x</think>"]⟩).2 then
        ((handleDataA p (fun _ => false) aPayloadY
          ⟨"<think>x</think>", [], false, 1, ["<think>x</think>"]⟩).1, true)
      else drainLoop (handleDataA p (fun _ => false)) 162
        (handleDataA p (fun _ => false) aPayloadY
          ⟨"<think>x</think>", [], false, 1, ["<think>x</think>"]⟩).1) from rfl, w2]
    rfl
  have hfeed : feed (handleDataA p (fun _ => false)) initSt (strBytes aStream) =
      ⟨"<think>x</think>y", [], false, 2, ["<think>x</think>", "y"]⟩ := by
    show (drainLoop (handleDataA p (fun _ => false)) 164
      ⟨"", strBytes aStream, false, 0, []⟩).1 = _
    rw [d1, w1, d2, w2]
    rfl
  obtain ⟨kk, hk⟩ := runChunks_join (handleDataA p (fun _ => false))
    (fun d s => handleDataA_never_break p (fun _ => false) d s)
    (fun d s k => handleDataA_setClock p d s k)
    (fun d s => handleDataA_buffer p (fun _ => false) d s)
    (fun d s b => handleDataA_extendBuf p d s b)
    "Response too large" chunks initSt
    (by simp [initSt])
    (by rw [hjoin]; decide)
  unfold stream_anthropic_with_search
  rw [hk, hjoin, hfeed]
  simp [setClock]

/-- **C6 witness.** The theorem applied to the finite parse table that
decodes the two payload lines, with the wire bytes split into two chunks
whose boundary falls in the middle of the first line. -/
theorem anthropic_decode_think_wrap_witness :
    stream_anthropic_with_search
      (fun s => if s = aPayloadX then some aJsonX
        else if s = aPayloadY then some aJsonY else none)
      (fun _ => false)
      ([(strBytes aStream).take 40, (strBytes aStream).drop 40].map Except.ok) =
      .ok ("<think>x</think>y", ["<think>x</think>", "y"]) :=
  anthropic_decode_think_wrap
    (fun s => if s = aPayloadX then some aJsonX
      else if s = aPayloadY then some aJsonY else none)
    rfl rfl
    [(strBytes aStream).take 40, (strBytes aStream).drop 40]
    (by
      rw [show ([(strBytes aStream).take 40, (strBytes aStream).drop 40] :
        List (List Nat)).flatten =
        (strBytes aStream).take 40 ++ ((strBytes aStream).drop 40 ++ []) from rfl]
      rw [List.append_nil, List.take_append_drop])

end AiDoc
